import Mathlib

/-!
# LeTracker: scheduling engine and history replay

A shallow embedding of `pkg/srs/srs_engine.go`, of `ImportHistory` and the replay in
`internal/service/review_service.go`, and of the query of `GetDailyTasks` in
`internal/repository/postgres_repository.go`.

Modelling conventions.
* The engine is embedded twice. `CalculateNextReview` reads the source over exact
  arithmetic (Go `int` as `ℤ`, `float64` as `ℚ`); the claims on the branch structure of
  the engine and on the replay loop are stated over it. `Binary64.CalculateNextReview`
  reads the same source in the arithmetic of the machine: `float64` values are `F64`
  (finite values, the infinities and NaN), every operation is rounded to nearest, ties
  to even, one operation at a time (no fused multiply-add, as the Go compiler emits for
  amd64 at its default level), `int` addition wraps at 64 bits, and the result of
  converting a float64 that no `int` holds, which the Go specification leaves to the
  implementation, is the parameter `conv`. The claims on the numbers the engine returns
  are stated over it.
* `time.Time` values are Unix seconds in `ℤ`. `addDate` moves a time by days of 86400
  seconds, which is `AddDate(0, 0, n)` in a zone without transitions; `AddDate` takes
  the zone as a parameter and moves the wall clock, as the Go library does.
* `rand.Float64()` and `time.Now()` are read from explicit streams that are passed
  to the functions, so that every function below is a pure function.
* The Go interface `Repository` is a record of functions on a database state, and the
  order in which `range` visits a map is an argument.
-/

namespace LeTracker

/-! ## pkg/srs/srs_engine.go -/

/-- Go `math.Round` followed by the conversion `int(...)`, on exact values: the nearest
integer, halves rounded away from zero. The 64-bit range of `int` is in
`F64.toInt`. -/
def goRound (x : ℚ) : ℤ :=
  if 0 ≤ x then Int.floor (x + 1 / 2) else -Int.floor (-x + 1 / 2)

/-- Go `t.AddDate(0, 0, days)` on Unix seconds, in a zone without transitions. -/
def addDate (t : ℤ) (days : ℤ) : ℤ := t + 86400 * days

/-- The Go struct `ReviewInput`. -/
structure ReviewInput where
  CurrentInterval : ℤ
  CurrentEF : ℚ
  Repetitions : ℤ
  Grade : ℤ
  ActualDays : ℚ
deriving DecidableEq

/-- The Go struct `ReviewOutput`. -/
structure ReviewOutput where
  NextReviewAt : ℤ
  Interval : ℤ
  EaseFactor : ℚ
  Repetitions : ℤ
deriving DecidableEq

/-- Lines 51-54: the SM-2 ease-factor update with its floor of 1.3. -/
def clampedEF (input : ReviewInput) : ℚ :=
  let newEF := input.CurrentEF +
    (0.1 - ((3 - input.Grade : ℤ) : ℚ) * (0.08 + ((3 - input.Grade : ℤ) : ℚ) * 0.02))
  if newEF < 1.3 then 1.3 else newEF

/-- Lines 83-88: the grade modifier of the late stage. -/
def modifier (input : ReviewInput) : ℚ :=
  if input.Grade = 1 then 0.8 else if input.Grade = 3 then 1.1 else 1.0

/-- Lines 80-90: `calculatedDays` before the retention bonus. -/
def calculatedDays (input : ReviewInput) : ℚ :=
  let baseInterval := (input.CurrentInterval : ℚ) * clampedEF input
  baseInterval * modifier input

/-- Lines 95 and 97: the two nested guards of the retention bonus. -/
def bonusFires (input : ReviewInput) : Prop :=
  (input.ActualDays > 0 ∧ input.Grade ≥ 2) ∧
    (input.CurrentInterval > 0 ∧ input.ActualDays > (input.CurrentInterval : ℚ) * 1.5)

instance (input : ReviewInput) : Decidable (bonusFires input) := by
  unfold bonusFires; infer_instance

/-- Lines 59-107 (for `Grade != 0`): the interval before fuzzing and the final ease
factor, as the pair `(newInterval, newEF)`. -/
def preFuzz (input : ReviewInput) : ℤ × ℚ :=
  let newEF := clampedEF input
  let newRepetitions := input.Repetitions + 1
  if newRepetitions = 1 then (1, newEF)
  else if newRepetitions = 2 then
    (if input.Grade = 1 then 3
     else if input.Grade = 2 then 5
     else if input.Grade = 3 then 7
     else 4, newEF)
  else
    if bonusFires input then
      (goRound (max (calculatedDays input) (input.ActualDays * 1.5)), newEF + 0.15)
    else
      (goRound (calculatedDays input), newEF)

/-- Lines 113-116: the fuzz step; `u` is the value `rand.Float64()` returns. -/
def fuzz (u : ℚ) (newInterval : ℤ) : ℤ :=
  if newInterval > 10 then
    let fuzzFactor := 0.95 + u * 0.1
    goRound ((newInterval : ℚ) * fuzzFactor)
  else newInterval

/-- Lines 119-121: at least one day. -/
def floorOne (newInterval : ℤ) : ℤ :=
  if newInterval < 1 then 1 else newInterval

/-- Whether `CalculateNextReview` calls `rand.Float64()` on this input. -/
def usesRand (input : ReviewInput) : Bool :=
  decide (input.Grade ≠ 0 ∧ (preFuzz input).1 > 10)

/-- The Go function `CalculateNextReview`; `now` is the value of `time.Now()` and `u`
the value `rand.Float64()` returns if it is called. -/
def CalculateNextReview (now : ℤ) (u : ℚ) (input : ReviewInput) : ReviewOutput :=
  if input.Grade = 0 then
    { NextReviewAt := addDate now 1
      Interval := 1
      EaseFactor := max 1.3 (input.CurrentEF - 0.2)
      Repetitions := 0 }
  else
    let newInterval := floorOne (fuzz u (preFuzz input).1)
    { NextReviewAt := addDate now newInterval
      Interval := newInterval
      EaseFactor := (preFuzz input).2
      Repetitions := input.Repetitions + 1 }

/-! ## internal/entity/models.go -/

/-- The Go struct `SubmissionLog`. -/
structure SubmissionLog where
  ID : String
  UserID : String
  QuestionID : String
  Status : String
  MasteryLevel : ℤ
  TimeTakenSeconds : ℤ
  Notes : String
  Date : ℤ
deriving DecidableEq

/-- The Go struct `UserQuestionStats`. -/
structure UserQuestionStats where
  ID : String
  UserID : String
  QuestionID : String
  Streak : ℤ
  EaseFactor : ℚ
  IntervalDays : ℤ
  Status : String
  NextReviewAt : ℤ
  LastReviewedAt : ℤ
deriving DecidableEq

/-! ## internal/service/review_service.go -/

/-- The Go struct `HistoryItem`. -/
structure HistoryItem where
  Title : String
  Slug : String
  Status : String
  Timestamp : ℤ
deriving DecidableEq

/-- The Go struct `replayItem`; `Timestamp` is `time.Unix(item.Timestamp, 0)`. -/
structure replayItem where
  Timestamp : ℤ
  Status : String
  Title : String
deriving DecidableEq

/-- The Go function `determineStatus`. -/
def determineStatus (streak : ℤ) : String :=
  if streak = 0 then "LEARNING"
  else if streak > 5 then "MASTERED"
  else "REVIEW"

/-- The zero value of `time.Time` (1 January of year 1, UTC) in Unix seconds. -/
def zeroTime : ℤ := -62135596800

/-- Line 236: `item.Timestamp.Sub(lastReviewDate).Hours() / 24.0`, on exact values and
for two times within the 292 years a `time.Duration` holds (beyond them `Sub`
saturates). -/
def elapsedDays (t lastReviewDate : ℤ) : ℚ :=
  ((t - lastReviewDate : ℤ) : ℚ) / 3600 / 24.0

/-- Lines 216-219: the grade derived from the outcome of an event. -/
def masteryOf (item : replayItem) : ℤ :=
  if item.Status ≠ "Accepted" then 0 else 2

/-- Lines 221-230: the log entry of an event. -/
def logOf (userID questionID : String) (item : replayItem) : SubmissionLog :=
  { ID := ""
    UserID := userID
    QuestionID := questionID
    Status := if masteryOf item = 0 then "FAILED" else "SOLVED"
    MasteryLevel := masteryOf item
    TimeTakenSeconds := 0
    Notes := ""
    Date := item.Timestamp }

/-- The variables of the loop of `replayHistory`, with the position `randCalls` in
the stream of `rand.Float64()` values and the number `engineCalls` of calls of
`CalculateNextReview` made so far. -/
structure ReplayState where
  currentStats : UserQuestionStats
  logs : List SubmissionLog
  lastReviewDate : ℤ
  randCalls : ℕ
  engineCalls : ℕ
deriving DecidableEq

/-- Lines 202-212: the state before the loop. -/
def initReplay (userID questionID : String) : ReplayState :=
  { currentStats :=
      { ID := ""
        UserID := userID
        QuestionID := questionID
        Streak := 0
        EaseFactor := 2.5
        IntervalDays := 0
        Status := "NEW"
        NextReviewAt := zeroTime
        LastReviewedAt := zeroTime }
    logs := []
    lastReviewDate := zeroTime
    randCalls := 0
    engineCalls := 0 }

/-- Lines 250-256: the engine input built from the running state. -/
def srsInputOf (st : ReplayState) (item : replayItem) (actualDays : ℚ) : ReviewInput :=
  { CurrentInterval := st.currentStats.IntervalDays
    CurrentEF := st.currentStats.EaseFactor
    Repetitions := st.currentStats.Streak
    Grade := masteryOf item
    ActualDays := actualDays }

/-- Lines 215-266: one iteration of the loop of `replayHistory`, for the event at
index `i`. `clock k` is `time.Now()` at the `k`-th engine call and `rand k` the
`k`-th value of `rand.Float64()`. -/
def replayStep (userID questionID : String) (clock : ℕ → ℤ) (rand : ℕ → ℚ)
    (i : ℕ) (st : ReplayState) (item : replayItem) : ReplayState :=
  let logs := st.logs ++ [logOf userID questionID item]
  let actualDays : ℚ := if i > 0 then elapsedDays item.Timestamp st.lastReviewDate else 0.0
  let lastReviewDate := if i = 0 then item.Timestamp else st.lastReviewDate
  if i > 0 ∧ actualDays < 0.5 then
    { st with logs := logs, lastReviewDate := lastReviewDate }
  else
    let srsInput := srsInputOf st item actualDays
    let srsOutput := CalculateNextReview (clock st.engineCalls) (rand st.randCalls) srsInput
    { currentStats :=
        { st.currentStats with
          IntervalDays := srsOutput.Interval
          EaseFactor := srsOutput.EaseFactor
          Streak := srsOutput.Repetitions
          Status := determineStatus srsOutput.Repetitions }
      logs := logs
      lastReviewDate := item.Timestamp
      randCalls := if usesRand srsInput then st.randCalls + 1 else st.randCalls
      engineCalls := st.engineCalls + 1 }

/-- The loop `for i, item := range items` of `replayHistory`, from index `i`. -/
def replayLoop (userID questionID : String) (clock : ℕ → ℤ) (rand : ℕ → ℚ) :
    ℕ → ReplayState → List replayItem → ReplayState
  | _, st, [] => st
  | i, st, item :: rest =>
    replayLoop userID questionID clock rand (i + 1)
      (replayStep userID questionID clock rand i st item) rest

/-- The loop of `replayHistory` run on all events from the initial state. -/
def replayRun (userID questionID : String) (clock : ℕ → ℤ) (rand : ℕ → ℚ)
    (items : List replayItem) : ReplayState :=
  replayLoop userID questionID clock rand 0 (initReplay userID questionID) items

/-- The Go method `replayHistory`: the final state and the logs. -/
def replayHistory (userID questionID : String) (clock : ℕ → ℤ) (rand : ℕ → ℚ)
    (items : List replayItem) : UserQuestionStats × List SubmissionLog :=
  let st := replayRun userID questionID clock rand items
  ({ st.currentStats with
      LastReviewedAt := st.lastReviewDate
      NextReviewAt := addDate st.lastReviewDate st.currentStats.IntervalDays },
    st.logs)

/-- A time zone as Go's `(*Location).lookup`: for a Unix time, the offset east of UTC
that is in force at that time, in seconds, and the bounds `start ≤ t < end` of the period
in which it is in force. -/
structure Zone where
  lookup : ℤ → ℤ × ℤ × ℤ

/-- Go `time.Date` in `zone`, for the civil time that is `wall` seconds after
1970-01-01 00:00:00 on the local clock: the offset is looked up at `wall` taken as a Unix
time, and once more when the Unix time it gives lies outside the period found. -/
def dateIn (zone : Zone) (wall : ℤ) : ℤ :=
  let offset := (zone.lookup wall).1
  let start := (zone.lookup wall).2.1
  let stop := (zone.lookup wall).2.2
  if offset ≠ 0 then
    let utc := wall - offset
    if utc < start ∨ utc ≥ stop then wall - (zone.lookup utc).1 else wall - offset
  else wall

/-- Go `t.AddDate(0, 0, days)` for a time `t` whose location is `zone`: the civil date
and clock of `t` in the zone, moved by `days` calendar days, and converted back. -/
def AddDate (zone : Zone) (t days : ℤ) : ℤ :=
  dateIn zone (t + (zone.lookup t).1 + 86400 * days)

/-- The zone UTC. -/
def utcZone : Zone := ⟨fun _ => (0, -(2 ^ 63), 2 ^ 63 - 1)⟩

/-- A zone for examples: one hour east of UTC before the Unix time 1000000, two hours
east from then on. -/
def exampleZone : Zone :=
  ⟨fun t => if t < 1000000 then (3600, -(2 ^ 63), 1000000) else (7200, 1000000, 2 ^ 63 - 1)⟩

/-- The Go method `replayHistory` when the local zone of the process is `zone`:
`time.Unix` (line 142) gives times in the local zone, and line 271 adds calendar days in
it. -/
def replayHistoryIn (zone : Zone) (userID questionID : String) (clock : ℕ → ℤ)
    (rand : ℕ → ℚ) (items : List replayItem) : UserQuestionStats × List SubmissionLog :=
  let st := replayRun userID questionID clock rand items
  ({ st.currentStats with
      LastReviewedAt := st.lastReviewDate
      NextReviewAt := AddDate zone st.lastReviewDate st.currentStats.IntervalDays },
    st.logs)

/-- The inner loop of insertion sort with `less(i, j)` the comparison of
`ImportHistory`: the new element `x` moves left past every element whose timestamp
is greater. The sorted prefix is given last element first. -/
def insertLeft (x : HistoryItem) : List HistoryItem → List HistoryItem
  | [] => [x]
  | y :: ys => if x.Timestamp < y.Timestamp then y :: insertLeft x ys else x :: y :: ys

/-- Lines 133-135: `sort.Slice(req.History, less)`. On a slice of at most 12
elements the Go standard library runs insertion sort; this is that loop. -/
def sortSlice (l : List HistoryItem) : List HistoryItem :=
  (l.foldl (fun sortedRev x => insertLeft x sortedRev) []).reverse

/-- Lines 138-146: the entry of the map `historyBySlug` for one slug, built from the
sorted history. -/
def historyBySlug (history : List HistoryItem) (slug : String) : List replayItem :=
  (history.filter (fun item => item.Slug = slug)).map
    (fun item => { Timestamp := item.Timestamp, Status := item.Status, Title := item.Title })

/-! ## Binary64 arithmetic -/

/-- A float64 value: a finite value (the two zeros are one value), an infinity, or NaN. -/
inductive F64 where
  | fin (q : ℚ)
  | inf (negative : Bool)
  | nan
deriving DecidableEq

namespace F64

/-- The integer nearest to `x`, a tie going to the even one. -/
def roundHalfEven (x : ℚ) : ℤ :=
  if x - ⌊x⌋ < 1 / 2 then ⌊x⌋
  else if 1 / 2 < x - ⌊x⌋ then ⌊x⌋ + 1
  else if ⌊x⌋ % 2 = 0 then ⌊x⌋ else ⌊x⌋ + 1

/-- The power `2 ^ e` as a rational. -/
def twoPow (e : ℤ) : ℚ :=
  if 0 ≤ e then ((2 ^ e.toNat : ℕ) : ℚ) else 1 / ((2 ^ (-e).toNat : ℕ) : ℚ)

/-- The position of the leading binary digit of `n`, found in at most `fuel` halvings. -/
def log2Fuel : ℕ → ℕ → ℕ
  | 0, _ => 0
  | fuel + 1, n => if 2 ≤ n then log2Fuel fuel (n / 2) + 1 else 0

/-- The position of the leading binary digit of `n ≥ 1`: `2 ^ natLog2 n ≤ n`. -/
def natLog2 (n : ℕ) : ℕ := log2Fuel n n

/-- The binary exponent of `x > 0`: the `e` with `2 ^ e ≤ x < 2 ^ (e + 1)`. -/
def binade (x : ℚ) : ℤ :=
  if twoPow ((natLog2 x.num.natAbs : ℤ) - (natLog2 x.den : ℤ)) ≤ x then
    (natLog2 x.num.natAbs : ℤ) - (natLog2 x.den : ℤ)
  else (natLog2 x.num.natAbs : ℤ) - (natLog2 x.den : ℤ) - 1

/-- The exponent of the unit in the last place of the binary64 values near `x ≥ 0`:
52 below the binary exponent of `x`, and -1074 in the subnormal range. -/
def ulpExp (x : ℚ) : ℤ := max (binade x) (-1022) - 52

/-- The multiple of the unit in the last place nearest to `x ≥ 0`, ties to even. -/
def roundPos (x : ℚ) : ℚ :=
  roundHalfEven (x / twoPow (ulpExp x)) * twoPow (ulpExp x)

/-- Rounding of a real result to binary64: to nearest, ties to even, and to an infinity
from `2 ^ 1024` on. -/
def rnd (x : ℚ) : F64 :=
  if x < 0 then
    if twoPow 1024 ≤ roundPos (-x) then inf true else fin (-roundPos (-x))
  else
    if twoPow 1024 ≤ roundPos x then inf false else fin (roundPos x)

/-- Go `x + y` on float64. -/
def add : F64 → F64 → F64
  | fin a, fin b => rnd (a + b)
  | nan, _ => nan
  | _, nan => nan
  | inf s, inf t => if s = t then inf s else nan
  | inf s, fin _ => inf s
  | fin _, inf t => inf t

/-- Go `-x` on float64. -/
def neg : F64 → F64
  | fin a => fin (-a)
  | inf s => inf (!s)
  | nan => nan

/-- Go `x - y` on float64. -/
def sub (x y : F64) : F64 := add x (neg y)

/-- Go `x * y` on float64. -/
def mul : F64 → F64 → F64
  | fin a, fin b => rnd (a * b)
  | nan, _ => nan
  | _, nan => nan
  | inf s, inf t => inf (xor s t)
  | inf s, fin b => if b = 0 then nan else inf (xor s (decide (b < 0)))
  | fin a, inf t => if a = 0 then nan else inf (xor (decide (a < 0)) t)

/-- Go `x < y` on float64. -/
def lt : F64 → F64 → Bool
  | fin a, fin b => decide (a < b)
  | nan, _ => false
  | _, nan => false
  | inf s, inf t => s && !t
  | inf s, fin _ => s
  | fin _, inf t => !t

/-- Go `x <= y` on float64. -/
def le : F64 → F64 → Bool
  | fin a, fin b => decide (a ≤ b)
  | nan, _ => false
  | _, nan => false
  | inf s, inf t => s || !t
  | inf s, fin _ => s
  | fin _, inf t => !t

/-- Go `float64(n)` for an `int`. -/
def ofInt (n : ℤ) : F64 := rnd n

/-- Go `math.Max`. -/
def Max : F64 → F64 → F64
  | inf false, _ => inf false
  | _, inf false => inf false
  | nan, _ => nan
  | _, nan => nan
  | inf true, y => y
  | x, inf true => x
  | fin a, fin b => fin (max a b)

end F64

instance : Add F64 := ⟨F64.add⟩
instance : Sub F64 := ⟨F64.sub⟩
instance : Mul F64 := ⟨F64.mul⟩

namespace F64

/-- A decimal constant of the source, converted to float64. -/
def lit (q : ℚ) : F64 := rnd q

/-- Go `math.Round`: to the nearest integer, halves away from zero. -/
def Round : F64 → F64
  | fin q => fin (goRound q)
  | x => x

/-- The integer part of `q`, towards zero. -/
def truncate (q : ℚ) : ℤ := if 0 ≤ q then ⌊q⌋ else -⌊-q⌋

/-- Go `int(x)` for a float64 `x`: the integer part when it fits in 64 bits; for any
other value the Go specification leaves the result to the implementation, and `conv`
gives it. -/
def toInt (conv : F64 → ℤ) : F64 → ℤ
  | fin q =>
    if -(2 ^ 63) ≤ truncate q ∧ truncate q < 2 ^ 63 then truncate q else conv (fin q)
  | x => conv x

end F64

/-- The conversion of an out-of-range float64 to `int` on amd64: the smallest `int`. -/
def convAmd64 : F64 → ℤ := fun _ => -(2 ^ 63)

/-- Go's `int` addition and subtraction: the exact result wrapped to 64 bits. -/
def wrap64 (n : ℤ) : ℤ := (n + 2 ^ 63) % 2 ^ 64 - 2 ^ 63

namespace Binary64

/-- The Go struct `ReviewInput`, with float64 fields. -/
structure ReviewInput where
  CurrentInterval : ℤ
  CurrentEF : F64
  Repetitions : ℤ
  Grade : ℤ
  ActualDays : F64
deriving DecidableEq

/-- The Go struct `ReviewOutput`, with a float64 field. -/
structure ReviewOutput where
  NextReviewAt : ℤ
  Interval : ℤ
  EaseFactor : F64
  Repetitions : ℤ
deriving DecidableEq

/-- Lines 51-54: the ease-factor update and its floor. -/
def clampedEF (input : ReviewInput) : F64 :=
  let newEF := input.CurrentEF +
    (F64.lit 0.1 - F64.ofInt (wrap64 (3 - input.Grade)) *
      (F64.lit 0.08 + F64.ofInt (wrap64 (3 - input.Grade)) * F64.lit 0.02))
  if newEF.lt (F64.lit 1.3) then F64.lit 1.3 else newEF

/-- Lines 83-88: the grade modifier. -/
def modifier (input : ReviewInput) : F64 :=
  if input.Grade = 1 then F64.lit 0.8 else if input.Grade = 3 then F64.lit 1.1
  else F64.lit 1.0

/-- Lines 80-90: `calculatedDays` before the retention bonus. -/
def calculatedDays (input : ReviewInput) : F64 :=
  let baseInterval := F64.ofInt input.CurrentInterval * clampedEF input
  baseInterval * modifier input

/-- Lines 95 and 97: the two nested guards of the retention bonus. -/
def bonusFires (input : ReviewInput) : Bool :=
  ((F64.fin 0).lt input.ActualDays && decide (input.Grade ≥ 2)) &&
    (decide (input.CurrentInterval > 0) &&
      (F64.ofInt input.CurrentInterval * F64.lit 1.5).lt input.ActualDays)

/-- Lines 59-107 (for `Grade != 0`): the interval before fuzzing and the final ease
factor, as the pair `(newInterval, newEF)`. -/
def preFuzz (conv : F64 → ℤ) (input : ReviewInput) : ℤ × F64 :=
  let newEF := clampedEF input
  let newRepetitions := wrap64 (input.Repetitions + 1)
  if newRepetitions = 1 then (1, newEF)
  else if newRepetitions = 2 then
    (if input.Grade = 1 then 3
     else if input.Grade = 2 then 5
     else if input.Grade = 3 then 7
     else 4, newEF)
  else
    if bonusFires input then
      (F64.toInt conv (F64.Round
        (F64.Max (calculatedDays input) (input.ActualDays * F64.lit 1.5))),
        newEF + F64.lit 0.15)
    else
      (F64.toInt conv (F64.Round (calculatedDays input)), newEF)

/-- Lines 113-116: the fuzz step; `u` is the value `rand.Float64()` returns. -/
def fuzz (conv : F64 → ℤ) (u : F64) (newInterval : ℤ) : ℤ :=
  if newInterval > 10 then
    let fuzzFactor := F64.lit 0.95 + u * F64.lit 0.1
    F64.toInt conv (F64.Round (F64.ofInt newInterval * fuzzFactor))
  else newInterval

/-- The Go function `CalculateNextReview` in the arithmetic of the machine. -/
def CalculateNextReview (zone : Zone) (conv : F64 → ℤ) (now : ℤ) (u : F64)
    (input : ReviewInput) : ReviewOutput :=
  if input.Grade = 0 then
    { NextReviewAt := AddDate zone now 1
      Interval := 1
      EaseFactor := F64.Max (F64.lit 1.3) (input.CurrentEF - F64.lit 0.2)
      Repetitions := 0 }
  else
    let newInterval := floorOne (fuzz conv u (preFuzz conv input).1)
    { NextReviewAt := AddDate zone now newInterval
      Interval := newInterval
      EaseFactor := (preFuzz conv input).2
      Repetitions := wrap64 (input.Repetitions + 1) }

end Binary64

/-! ## ImportHistory and the repository interface -/

/-- The Go struct `Question`. -/
structure Question where
  ID : String
  LeetcodeID : ℤ
  Title : String
  Slug : String
  Difficulty : String
  Category : String
  IsNeetcode150 : Bool
  CreatedAt : ℤ
deriving DecidableEq

/-- The methods of the Go interface `Repository` that `ImportHistory` calls, as
functions on a database state `σ`. A returned Go `error` is `Except.error` for the
methods with a value and `some` for the others. -/
structure Repository (σ : Type) where
  GetQuestionBySlug : String → σ → Except String Question × σ
  CreateQuestion : Question → σ → Except String String × σ
  UpsertUserStats : UserQuestionStats → σ → Option String × σ
  BatchCreateLogs : List SubmissionLog → σ → Option String × σ

/-- The Go method `ensureQuestionExists`: look the slug up and create the question
when the lookup returns an error. -/
def ensureQuestionExists {σ : Type} (repo : Repository σ) (slug title : String)
    (db : σ) : Except String String × σ :=
  match repo.GetQuestionBySlug slug db with
  | (Except.ok q, db1) => (Except.ok q.ID, db1)
  | (Except.error _, db1) =>
    repo.CreateQuestion
      { ID := "", LeetcodeID := 0, Title := title, Slug := slug, Difficulty := "",
        Category := "", IsNeetcode150 := true, CreatedAt := zeroTime } db1

/-- Line 152: `items[0].Title`; an entry of the map `historyBySlug` is never empty. -/
def firstTitle : List replayItem → String
  | [] => ""
  | item :: _ => item.Title

/-- The state carried through the loop over the groups of `ImportHistory`: the
database, the positions reached in the streams of `rand.Float64()` and `time.Now()`
values, and the record `completed` of the groups that were replayed and persisted,
each with what was written for it. -/
structure ImportState (σ : Type) where
  db : σ
  randCalls : ℕ
  engineCalls : ℕ
  completed : List (String × UserQuestionStats × List SubmissionLog)

/-- Lines 149-173: the loop `for slug, items := range historyBySlug` of
`ImportHistory`, over the slugs in the order in which `range` visits them. The result
is the returned `error` (`none` is `nil`) and the state reached. -/
def importLoop {σ : Type} (repo : Repository σ) (clock : ℕ → ℤ) (rand : ℕ → ℚ)
    (userID : String) (groups : String → List replayItem) :
    List String → ImportState σ → Option String × ImportState σ
  | [], st => (none, st)
  | slug :: rest, st =>
    let items := groups slug
    match ensureQuestionExists repo slug (firstTitle items) st.db with
    | (Except.error _, db1) =>
      importLoop repo clock rand userID groups rest { st with db := db1 }
    | (Except.ok questionID, db1) =>
      let clock1 := fun k => clock (st.engineCalls + k)
      let rand1 := fun k => rand (st.randCalls + k)
      let run := replayRun userID questionID clock1 rand1 items
      let finalStats := (replayHistory userID questionID clock1 rand1 items).1
      let logsToInsert := (replayHistory userID questionID clock1 rand1 items).2
      let randCalls := st.randCalls + run.randCalls
      let engineCalls := st.engineCalls + run.engineCalls
      match repo.UpsertUserStats finalStats db1 with
      | (some err, db2) =>
        (some err, { st with db := db2, randCalls := randCalls, engineCalls := engineCalls })
      | (none, db2) =>
        if logsToInsert.length > 0 then
          match repo.BatchCreateLogs logsToInsert db2 with
          | (some err, db3) =>
            (some err,
              { st with db := db3, randCalls := randCalls, engineCalls := engineCalls })
          | (none, db3) =>
            importLoop repo clock rand userID groups rest
              { db := db3, randCalls := randCalls, engineCalls := engineCalls,
                completed := st.completed ++ [(slug, finalStats, logsToInsert)] }
        else
          importLoop repo clock rand userID groups rest
            { db := db2, randCalls := randCalls, engineCalls := engineCalls,
              completed := st.completed ++ [(slug, finalStats, logsToInsert)] }

/-- The Go method `ImportHistory`. `srt` is what `sort.Slice` with the comparison of
lines 133-135 does to the request, and `order` lists the slugs of the request in the
order in which the `range` over the map visits them. -/
def ImportHistory {σ : Type} (repo : Repository σ) (clock : ℕ → ℤ) (rand : ℕ → ℚ)
    (srt : List HistoryItem → List HistoryItem) (order : List String) (userID : String)
    (req : List HistoryItem) (db : σ) : Option String × ImportState σ :=
  importLoop repo clock rand userID (historyBySlug (srt req)) order
    { db := db, randCalls := 0, engineCalls := 0, completed := [] }

/-- A repository for examples. Every lookup fails with "question not found"; creating
the question fails for the slug `bad` and succeeds for every other slug; writing the
state fails for the question of the slug `full`. The database is the list of the
states and the list of the logs written so far. -/
def exampleRepo (bad full : String) :
    Repository (List UserQuestionStats × List SubmissionLog) where
  GetQuestionBySlug := fun _ db => (Except.error "question not found", db)
  CreateQuestion := fun q db =>
    if q.Slug = bad then (Except.error "insert failed", db)
    else (Except.ok ("id-" ++ q.Slug), db)
  UpsertUserStats := fun stats db =>
    if stats.QuestionID = "id-" ++ full then (some "disk full", db)
    else (none, (db.1 ++ [stats], db.2))
  BatchCreateLogs := fun logs db => (none, (db.1, db.2 ++ logs))

/-! ## internal/repository/postgres_repository.go: the query of GetDailyTasks -/

/-- The Go struct `QuestionTask`. -/
structure QuestionTask where
  QuestionID : String
  Title : String
  Slug : String
  Difficulty : String
  Status : String
  NextReviewAt : ℤ
  OverdueByDays : ℚ
deriving DecidableEq

/-- A row of `user_question_stats s JOIN questions q ON s.question_id = q.id`, with
the columns that the query of `GetDailyTasks` reads; times are Unix seconds. -/
structure StatsRow where
  id : String
  title : String
  slug : String
  difficulty : String
  user_id : String
  status : String
  next_review_at : ℤ
  interval_days : ℤ
deriving DecidableEq

/-- Lines 152-153: the `WHERE` clause; `now` is the value of `NOW()`. -/
def isSelected (now : ℤ) (userID : String) (row : StatsRow) : Bool :=
  decide (row.user_id = userID ∧ (row.next_review_at ≤ now ∨ row.status = "NEW"))

/-- Lines 155-158: the `CASE` expression of the `ORDER BY` clause. -/
def priority (now : ℤ) (row : StatsRow) : ℚ :=
  if row.interval_days = 0 then 1000.0
  else ((now - row.next_review_at : ℤ) : ℚ) / ((row.interval_days * 86400 : ℤ) : ℚ)

/-- Lines 154-158: `ORDER BY ... DESC`. SQL leaves the order of rows with equal values
open; here they keep the order in which they are given. -/
def orderByPriorityDesc (now : ℤ) (rows : List StatsRow) : List StatsRow :=
  rows.insertionSort (fun a b => priority now a ≥ priority now b)

/-- Lines 146-160: the rows that the query returns, in order, for a non-negative
`limit`. -/
def rankedRows (now : ℤ) (rows : List StatsRow) (userID : String) (limit : ℤ) :
    List StatsRow :=
  (orderByPriorityDesc now (rows.filter (isSelected now userID))).take limit.toNat

/-- Lines 147-149 and 172: the task scanned from a returned row. -/
def taskOfRow (now : ℤ) (row : StatsRow) : QuestionTask :=
  { QuestionID := row.id
    Title := row.title
    Slug := row.slug
    Difficulty := row.difficulty
    Status := row.status
    NextReviewAt := row.next_review_at
    OverdueByDays := ((now - row.next_review_at : ℤ) : ℚ) / 86400.0 }

/-- The Go method `GetDailyTasks` for a query that succeeds, on the joined table
`rows`. -/
def GetDailyTasks (now : ℤ) (rows : List StatsRow) (userID : String) (limit : ℤ) :
    List QuestionTask :=
  (rankedRows now rows userID limit).map (taskOfRow now)

/-! ## Definitions that follow the specification -/

/-- Specification side (section 4.2, step 3): the timestamp of the last processed
event after the events `es`, when `last` is the timestamp of the last processed event
before them: an event less than half a day after `last` is skipped, any other one is
processed and becomes the anchor. -/
def lastProcessedFrom (last : ℤ) : List replayItem → ℤ
  | [] => last
  | e :: es =>
    if ((e.Timestamp - last : ℤ) : ℚ) / 86400 < 1 / 2 then lastProcessedFrom last es
    else lastProcessedFrom e.Timestamp es

/-- Specification side: the timestamp of the last processed event of a history; the
first event is always processed. -/
def lastProcessedTimestamp : List replayItem → Option ℤ
  | [] => none
  | e :: es => some (lastProcessedFrom e.Timestamp es)

/-- Specification side (section 4.2, step 3): the log entry of an event. -/
def specLog (userID questionID : String) (timestamp : ℤ) (status : String) :
    SubmissionLog :=
  if status = "Accepted" then
    { ID := "", UserID := userID, QuestionID := questionID, Status := "SOLVED",
      MasteryLevel := 2, TimeTakenSeconds := 0, Notes := "", Date := timestamp }
  else
    { ID := "", UserID := userID, QuestionID := questionID, Status := "FAILED",
      MasteryLevel := 0, TimeTakenSeconds := 0, Notes := "", Date := timestamp }

/-- Specification side (section 7): what one slug group does to the state of the import
when no write fails. A group whose question cannot be resolved is left out, and only the
lookup has touched the database; any other group is replayed, its final state is written
and then its logs. -/
def processGroup {σ : Type} (repo : Repository σ) (clock : ℕ → ℤ) (rand : ℕ → ℚ)
    (userID : String) (groups : String → List replayItem) (st : ImportState σ)
    (slug : String) : ImportState σ :=
  match ensureQuestionExists repo slug (firstTitle (groups slug)) st.db with
  | (Except.error _, db1) => { st with db := db1 }
  | (Except.ok questionID, db1) =>
    let result := replayHistory userID questionID (fun k => clock (st.engineCalls + k))
      (fun k => rand (st.randCalls + k)) (groups slug)
    let run := replayRun userID questionID (fun k => clock (st.engineCalls + k))
      (fun k => rand (st.randCalls + k)) (groups slug)
    let db2 := (repo.UpsertUserStats result.1 db1).2
    { db := if result.2.length > 0 then (repo.BatchCreateLogs result.2 db2).2 else db2
      randCalls := st.randCalls + run.randCalls
      engineCalls := st.engineCalls + run.engineCalls
      completed := st.completed ++ [(slug, result.1, result.2)] }

/-- Specification side (section 4.2, step 3): the events among `es` that are
processed, when `last` is the timestamp of the last processed event before them. -/
def processedFrom (last : ℤ) : List replayItem → List replayItem
  | [] => []
  | e :: es =>
    if ((e.Timestamp - last : ℤ) : ℚ) / 86400 < 1 / 2 then processedFrom last es
    else e :: processedFrom e.Timestamp es

/-- Specification side: the processed (not skipped) events of a history, in order; the
first event is always processed. -/
def processedEvents : List replayItem → List replayItem
  | [] => []
  | e :: es => e :: processedFrom e.Timestamp es

/-- Specification side: the number of events that come after the last event whose
status is not "Accepted" (all events when there is none). -/
def acceptedSinceLastFailure (events : List replayItem) : ℕ :=
  (events.reverse.takeWhile (fun e => decide (e.Status = "Accepted"))).length

/-- The streak after the events `events` are processed one after the other from the
streak `streak`: an Accepted event adds one, any other event resets it. -/
def streakAfter (streak : ℤ) (events : List replayItem) : ℤ :=
  events.foldl (fun s e => if e.Status = "Accepted" then s + 1 else 0) streak

/-- The part of a replay item that the replay reads. -/
def replayKey (item : replayItem) : ℤ × String := (item.Timestamp, item.Status)

/-- Specification side: `n` is the integer nearest to `q`, a tie going away from zero. -/
def IsNearestAway (q : ℚ) (n : ℤ) : Prop :=
  |(n : ℚ) - q| ≤ 1 / 2 ∧ (|(n : ℚ) - q| = 1 / 2 → |q| < |(n : ℚ)|)

/-! ## Helper lemmas on rounding -/

theorem goRound_mono {x y : ℚ} (h : x ≤ y) : goRound x ≤ goRound y := by
  unfold goRound
  by_cases hx : 0 ≤ x
  · have hy : 0 ≤ y := le_trans hx h
    rw [if_pos hx, if_pos hy]
    exact Int.floor_le_floor (by linarith)
  · rw [if_neg hx]
    by_cases hy : 0 ≤ y
    · rw [if_pos hy]
      have h1 : (0 : ℤ) ≤ Int.floor (-x + 1 / 2) := Int.floor_nonneg.mpr (by linarith)
      have h2 : (0 : ℤ) ≤ Int.floor (y + 1 / 2) := Int.floor_nonneg.mpr (by linarith)
      omega
    · rw [if_neg hy]
      have := Int.floor_le_floor (show -y + 1 / 2 ≤ -x + 1 / 2 by linarith)
      omega

theorem goRound_intCast (n : ℤ) : goRound (n : ℚ) = n := by
  unfold goRound
  by_cases hn : (0 : ℚ) ≤ (n : ℚ)
  · rw [if_pos hn]
    rw [Int.floor_eq_iff]
    constructor <;> linarith
  · rw [if_neg hn]
    have : Int.floor (-(n : ℚ) + 1 / 2) = -n := by
      rw [Int.floor_eq_iff]
      push_cast
      constructor <;> linarith
    rw [this]; ring

theorem floorOne_ge (n : ℤ) : 1 ≤ floorOne n := by
  unfold floorOne
  split_ifs with h
  · exact le_refl _
  · omega

/-! ## Claims on the scheduling engine -/

/-- C1: for every input with `Grade = 0` the engine returns `Interval = 1`,
`Repetitions = 0` and `EaseFactor = max(1.3, CurrentEF - 0.2)`, whatever the other
fields, the clock and the fuzz draw are. -/
theorem again_branch (now : ℤ) (u : ℚ) (input : ReviewInput) (hg : input.Grade = 0) :
    (CalculateNextReview now u input).Interval = 1 ∧
    (CalculateNextReview now u input).Repetitions = 0 ∧
    (CalculateNextReview now u input).EaseFactor = max 1.3 (input.CurrentEF - 0.2) := by
  unfold CalculateNextReview
  rw [if_pos hg]
  exact ⟨rfl, rfl, rfl⟩

theorem again_branch_witness :
    (CalculateNextReview 0 (1 / 2) ⟨30, 2.5, 7, 0, 100⟩).Interval = 1 ∧
    (CalculateNextReview 0 (1 / 2) ⟨30, 2.5, 7, 0, 100⟩).Repetitions = 0 ∧
    (CalculateNextReview 0 (1 / 2) ⟨30, 2.5, 7, 0, 100⟩).EaseFactor =
      max 1.3 ((2.5 : ℚ) - 0.2) :=
  again_branch 0 (1 / 2) ⟨30, 2.5, 7, 0, 100⟩ rfl

theorem floorOne_eq_max (n : ℤ) : floorOne n = max n 1 := by
  unfold floorOne
  split_ifs with h
  · rw [max_eq_right (by omega)]
  · rw [max_eq_left (by omega)]

theorem preFuzz_late (input : ReviewInput) (hr : 2 ≤ input.Repetitions) :
    preFuzz input =
      if bonusFires input then
        (goRound (max (calculatedDays input) (input.ActualDays * 1.5)),
          clampedEF input + 0.15)
      else (goRound (calculatedDays input), clampedEF input) := by
  unfold preFuzz
  simp only
  rw [if_neg (by omega), if_neg (by omega)]

/-- C3: the first two tiers are hard-coded. For every input with `Grade ≠ 0`:
`Repetitions = 0` gives `Repetitions = 1` and `Interval = 1`; `Repetitions = 1` gives
`Repetitions = 2` and `Interval` 3 for HARD, 5 for GOOD, 7 for EASY and 4 for any
other grade, whatever `CurrentInterval`, `CurrentEF` and `ActualDays` are. -/
theorem early_tiers (now : ℤ) (u : ℚ) (input : ReviewInput) (hg : input.Grade ≠ 0) :
    (input.Repetitions = 0 →
      (CalculateNextReview now u input).Repetitions = 1 ∧
      (CalculateNextReview now u input).Interval = 1) ∧
    (input.Repetitions = 1 →
      (CalculateNextReview now u input).Repetitions = 2 ∧
      (CalculateNextReview now u input).Interval =
        if input.Grade = 1 then 3 else if input.Grade = 2 then 5
        else if input.Grade = 3 then 7 else 4) := by
  unfold CalculateNextReview
  rw [if_neg hg]
  refine ⟨fun h0 => ⟨by simp [h0], ?_⟩, fun h1 => ⟨by simp [h1], ?_⟩⟩
  · simp [preFuzz, h0, fuzz, floorOne]
  · simp only [preFuzz, h1]
    norm_num
    split_ifs <;> simp [fuzz, floorOne]

theorem early_tiers_witness :
    (CalculateNextReview 0 0 ⟨1, 2.5, 1, 3, 0⟩).Repetitions = 2 ∧
    (CalculateNextReview 0 0 ⟨1, 2.5, 1, 3, 0⟩).Interval = 7 := by
  have h := (early_tiers 0 0 ⟨1, 2.5, 1, 3, 0⟩ (by decide)).2 rfl
  simpa using h

/-- C5: for every input with `Grade ≠ 0` and `Repetitions ≥ 2` the retention bonus
(pre-fuzz days raised to `max(calculatedDays, ActualDays * 1.5)` and the ease
factor increased by 0.15 over the clamped value) is applied if and only if
`ActualDays > 0`, `Grade ≥ 2`, `CurrentInterval > 0` and
`ActualDays > CurrentInterval * 1.5`; otherwise the pre-fuzz interval is
`round(calculatedDays)` and the ease factor is the clamped value. It is not applied
at exactly `ActualDays = CurrentInterval * 1.5`, nor for HARD. -/
theorem retention_bonus_iff (now : ℤ) (u : ℚ) (input : ReviewInput)
    (hg : input.Grade ≠ 0) (hr : 2 ≤ input.Repetitions) :
    ((input.ActualDays > 0 ∧ input.Grade ≥ 2 ∧ input.CurrentInterval > 0 ∧
        input.ActualDays > (input.CurrentInterval : ℚ) * 1.5) →
      (preFuzz input).1 =
        goRound (max (calculatedDays input) (input.ActualDays * 1.5)) ∧
      (CalculateNextReview now u input).EaseFactor = clampedEF input + 0.15) ∧
    (¬ (input.ActualDays > 0 ∧ input.Grade ≥ 2 ∧ input.CurrentInterval > 0 ∧
        input.ActualDays > (input.CurrentInterval : ℚ) * 1.5) →
      (preFuzz input).1 = goRound (calculatedDays input) ∧
      (CalculateNextReview now u input).EaseFactor = clampedEF input) ∧
    ((CalculateNextReview now u input).EaseFactor = clampedEF input + 0.15 ↔
      (input.ActualDays > 0 ∧ input.Grade ≥ 2 ∧ input.CurrentInterval > 0 ∧
        input.ActualDays > (input.CurrentInterval : ℚ) * 1.5)) ∧
    (input.ActualDays = (input.CurrentInterval : ℚ) * 1.5 →
      (preFuzz input).1 = goRound (calculatedDays input) ∧
      (CalculateNextReview now u input).EaseFactor = clampedEF input) ∧
    (input.Grade = 1 →
      (preFuzz input).1 = goRound (calculatedDays input) ∧
      (CalculateNextReview now u input).EaseFactor = clampedEF input) ∧
    (CalculateNextReview now u input).Interval =
      floorOne (fuzz u (preFuzz input).1) := by
  have hEF : (CalculateNextReview now u input).EaseFactor = (preFuzz input).2 := by
    unfold CalculateNextReview; rw [if_neg hg]
  have hInt : (CalculateNextReview now u input).Interval =
      floorOne (fuzz u (preFuzz input).1) := by
    unfold CalculateNextReview; rw [if_neg hg]
  have hiff : bonusFires input ↔
      (input.ActualDays > 0 ∧ input.Grade ≥ 2 ∧ input.CurrentInterval > 0 ∧
        input.ActualDays > (input.CurrentInterval : ℚ) * 1.5) := by
    unfold bonusFires; tauto
  have hyes : bonusFires input →
      (preFuzz input).1 =
        goRound (max (calculatedDays input) (input.ActualDays * 1.5)) ∧
      (CalculateNextReview now u input).EaseFactor = clampedEF input + 0.15 := by
    intro hb
    rw [hEF, preFuzz_late input hr, if_pos hb]
    exact ⟨rfl, rfl⟩
  have hno : ¬ bonusFires input →
      (preFuzz input).1 = goRound (calculatedDays input) ∧
      (CalculateNextReview now u input).EaseFactor = clampedEF input := by
    intro hb
    rw [hEF, preFuzz_late input hr, if_neg hb]
    exact ⟨rfl, rfl⟩
  refine ⟨fun h => hyes (hiff.mpr h), fun h => hno (fun hb => h (hiff.mp hb)), ?_, ?_, ?_,
    hInt⟩
  · constructor
    · intro h
      by_contra hc
      have h2 := (hno (fun hb => hc (hiff.mp hb))).2
      rw [h2] at h
      norm_num at h
    · intro h
      exact (hyes (hiff.mpr h)).2
  · intro h
    apply hno
    intro hb
    have := hb.2.2
    rw [h] at this
    exact lt_irrefl _ this
  · intro h
    apply hno
    intro hb
    have := hb.1.2
    omega

theorem retention_bonus_iff_witness :
    (CalculateNextReview 0 0 ⟨5, 2.5, 2, 2, 20⟩).EaseFactor =
      clampedEF ⟨5, 2.5, 2, 2, 20⟩ + 0.15 :=
  ((retention_bonus_iff 0 0 ⟨5, 2.5, 2, 2, 20⟩ (by decide) (by decide)).1
    ⟨by norm_num, by decide, by decide, by norm_num⟩).2

/-! ## Helper lemmas on binary64 rounding -/

namespace F64

theorem log2Fuel_spec : ∀ (fuel n : ℕ), n ≤ fuel → 0 < n →
    2 ^ log2Fuel fuel n ≤ n ∧ n < 2 ^ (log2Fuel fuel n + 1) := by
  intro fuel
  induction fuel with
  | zero => intro n h1 h2; omega
  | succ fuel ih =>
    intro n hn hpos
    unfold log2Fuel
    by_cases h2 : 2 ≤ n
    · rw [if_pos h2]
      obtain ⟨ha, hb⟩ := ih (n / 2) (by omega) (by omega)
      constructor
      · rw [pow_succ]
        omega
      · rw [pow_succ]
        omega
    · rw [if_neg h2]
      constructor
      · simp; omega
      · simp; omega

theorem natLog2_spec (n : ℕ) (hn : 0 < n) :
    2 ^ natLog2 n ≤ n ∧ n < 2 ^ (natLog2 n + 1) :=
  log2Fuel_spec n n (le_refl n) hn

theorem twoPow_eq (e : ℤ) : twoPow e = (2 : ℚ) ^ e := by
  unfold twoPow
  by_cases he : 0 ≤ e
  · rw [if_pos he]
    obtain ⟨k, rfl⟩ := Int.eq_ofNat_of_zero_le he
    simp
  · rw [if_neg he]
    obtain ⟨k, hk⟩ : ∃ k : ℕ, e = -(k : ℤ) := ⟨(-e).toNat, by omega⟩
    subst hk
    simp

theorem twoPow_pos (e : ℤ) : 0 < twoPow e := by
  rw [twoPow_eq]; positivity

theorem twoPow_le {a b : ℤ} (h : a ≤ b) : twoPow a ≤ twoPow b := by
  rw [twoPow_eq, twoPow_eq]
  exact zpow_le_zpow_right₀ (by norm_num) h

theorem twoPow_add (a b : ℤ) : twoPow (a + b) = twoPow a * twoPow b := by
  rw [twoPow_eq, twoPow_eq, twoPow_eq, zpow_add₀ (by norm_num)]

theorem twoPow_lt_iff {a b : ℤ} : twoPow a < twoPow b ↔ a < b := by
  rw [twoPow_eq, twoPow_eq]
  exact zpow_lt_zpow_iff_right₀ (by norm_num)

theorem binade_spec (x : ℚ) (hx : 0 < x) :
    twoPow (binade x) ≤ x ∧ x < twoPow (binade x + 1) := by
  have hnum : 0 < x.num := Rat.num_pos.mpr hx
  have hp : 0 < x.num.natAbs := Int.natAbs_pos.mpr (ne_of_gt hnum)
  have hq : 0 < x.den := x.den_pos
  obtain ⟨ha1, ha2⟩ := natLog2_spec x.num.natAbs hp
  obtain ⟨hb1, hb2⟩ := natLog2_spec x.den hq
  have hxe : x = (x.num.natAbs : ℚ) / (x.den : ℚ) := by
    have h2 : (x.num.natAbs : ℚ) = (x.num : ℚ) := by
      rw [Nat.cast_natAbs, abs_of_pos hnum]
    rw [h2]
    exact (Rat.num_div_den x).symm
  have ha1' : (2 : ℚ) ^ natLog2 x.num.natAbs ≤ (x.num.natAbs : ℚ) := by exact_mod_cast ha1
  have ha2' : (x.num.natAbs : ℚ) < (2 : ℚ) ^ (natLog2 x.num.natAbs + 1) := by
    exact_mod_cast ha2
  have hb1' : (2 : ℚ) ^ natLog2 x.den ≤ (x.den : ℚ) := by exact_mod_cast hb1
  have hb2' : (x.den : ℚ) < (2 : ℚ) ^ (natLog2 x.den + 1) := by exact_mod_cast hb2
  have hqpos : (0 : ℚ) < (x.den : ℚ) := by exact_mod_cast hq
  have hppos : (0 : ℚ) < (x.num.natAbs : ℚ) := by exact_mod_cast hp
  have hupper : x < twoPow ((natLog2 x.num.natAbs : ℤ) - (natLog2 x.den : ℤ) + 1) := by
    have : twoPow ((natLog2 x.num.natAbs : ℤ) - (natLog2 x.den : ℤ) + 1) =
        (2 : ℚ) ^ (natLog2 x.num.natAbs + 1) / (2 : ℚ) ^ natLog2 x.den := by
      rw [twoPow_eq, show ((natLog2 x.num.natAbs : ℤ) - (natLog2 x.den : ℤ) + 1) =
        ((natLog2 x.num.natAbs + 1 : ℕ) : ℤ) - ((natLog2 x.den : ℕ) : ℤ) by push_cast; ring,
        zpow_sub₀ (by norm_num), zpow_natCast, zpow_natCast]
    rw [this]
    calc x = (x.num.natAbs : ℚ) / (x.den : ℚ) := hxe
      _ < _ := div_lt_div₀ ha2' hb1' (by positivity) (by positivity)
  have hlower : twoPow ((natLog2 x.num.natAbs : ℤ) - (natLog2 x.den : ℤ) - 1) ≤ x := by
    have : twoPow ((natLog2 x.num.natAbs : ℤ) - (natLog2 x.den : ℤ) - 1) =
        (2 : ℚ) ^ natLog2 x.num.natAbs / (2 : ℚ) ^ (natLog2 x.den + 1) := by
      rw [twoPow_eq, show ((natLog2 x.num.natAbs : ℤ) - (natLog2 x.den : ℤ) - 1) =
        ((natLog2 x.num.natAbs : ℕ) : ℤ) - ((natLog2 x.den + 1 : ℕ) : ℤ) by push_cast; ring,
        zpow_sub₀ (by norm_num), zpow_natCast, zpow_natCast]
    rw [this]
    calc _ ≤ (x.num.natAbs : ℚ) / (x.den : ℚ) :=
          div_le_div₀ (le_of_lt hppos) ha1' hqpos (le_of_lt hb2')
      _ = x := hxe.symm
  unfold binade
  split_ifs with h
  · exact ⟨h, hupper⟩
  · refine ⟨hlower, ?_⟩
    rw [sub_add_cancel]
    exact not_le.mp h

theorem binade_mono {x y : ℚ} (hx : 0 < x) (hxy : x ≤ y) : binade x ≤ binade y := by
  obtain ⟨h1, _⟩ := binade_spec x hx
  obtain ⟨_, h4⟩ := binade_spec y (lt_of_lt_of_le hx hxy)
  have : binade x < binade y + 1 :=
    twoPow_lt_iff.mp (lt_of_le_of_lt (le_trans h1 hxy) h4)
  omega

theorem ulpExp_mono {x y : ℚ} (hx : 0 < x) (hxy : x ≤ y) : ulpExp x ≤ ulpExp y := by
  unfold ulpExp
  have := binade_mono hx hxy
  omega

theorem floor_le_roundHalfEven (x : ℚ) : ⌊x⌋ ≤ roundHalfEven x := by
  unfold roundHalfEven
  split_ifs <;> omega

theorem roundHalfEven_le (x : ℚ) : roundHalfEven x ≤ ⌊x⌋ + 1 := by
  unfold roundHalfEven
  split_ifs <;> omega

theorem roundHalfEven_intCast (n : ℤ) : roundHalfEven (n : ℚ) = n := by
  unfold roundHalfEven
  rw [Int.floor_intCast]
  simp

theorem roundHalfEven_mono {x y : ℚ} (hxy : x ≤ y) :
    roundHalfEven x ≤ roundHalfEven y := by
  have hf : ⌊x⌋ ≤ ⌊y⌋ := Int.floor_le_floor hxy
  rcases lt_or_eq_of_le hf with hlt | heq
  · have h1 := roundHalfEven_le x
    have h2 := floor_le_roundHalfEven y
    omega
  · have hfrac : x - ⌊x⌋ ≤ y - ⌊y⌋ := by rw [heq]; linarith
    unfold roundHalfEven
    split_ifs <;> first | omega | (exfalso; linarith)

theorem roundPos_zero : roundPos 0 = 0 := by
  unfold roundPos
  simp [roundHalfEven]

theorem roundPos_nonneg (x : ℚ) (hx : 0 ≤ x) : 0 ≤ roundPos x := by
  unfold roundPos
  have h1 : (0 : ℚ) ≤ x / twoPow (ulpExp x) := div_nonneg hx (le_of_lt (twoPow_pos _))
  have h2 : (0 : ℤ) ≤ ⌊x / twoPow (ulpExp x)⌋ := Int.floor_nonneg.mpr h1
  have h3 := floor_le_roundHalfEven (x / twoPow (ulpExp x))
  have h4 : (0 : ℚ) ≤ (roundHalfEven (x / twoPow (ulpExp x)) : ℚ) := by
    exact_mod_cast le_trans h2 h3
  exact mul_nonneg h4 (le_of_lt (twoPow_pos _))

theorem twoPow_53 : twoPow 53 = ((2 ^ 53 : ℤ) : ℚ) := by decide!

theorem twoPow_52 : twoPow 52 = ((2 ^ 52 : ℤ) : ℚ) := by decide!

theorem roundPos_le_twoPow (x : ℚ) (hx : 0 < x) :
    roundPos x ≤ twoPow (ulpExp x + 53) := by
  obtain ⟨_, h2⟩ := binade_spec x hx
  have he : binade x + 1 ≤ ulpExp x + 53 := by unfold ulpExp; omega
  have hlt : x < twoPow (ulpExp x + 53) := lt_of_lt_of_le h2 (twoPow_le he)
  have hdiv : x / twoPow (ulpExp x) ≤ ((2 ^ 53 : ℤ) : ℚ) := by
    rw [div_le_iff₀ (twoPow_pos _)]
    have : twoPow (ulpExp x + 53) = ((2 ^ 53 : ℤ) : ℚ) * twoPow (ulpExp x) := by
      rw [add_comm, twoPow_add, twoPow_53]
    rw [← this]
    exact le_of_lt hlt
  have hr := roundHalfEven_mono hdiv
  rw [roundHalfEven_intCast] at hr
  unfold roundPos
  have : twoPow (ulpExp x + 53) = ((2 ^ 53 : ℤ) : ℚ) * twoPow (ulpExp x) := by
    rw [add_comm, twoPow_add, twoPow_53]
  rw [this]
  exact mul_le_mul_of_nonneg_right (by exact_mod_cast hr) (le_of_lt (twoPow_pos _))

theorem twoPow_le_roundPos (y : ℚ) (hy : 0 < y) (he : -1074 < ulpExp y) :
    twoPow (ulpExp y + 52) ≤ roundPos y := by
  obtain ⟨h1, _⟩ := binade_spec y hy
  have hb : ulpExp y + 52 = binade y := by
    unfold ulpExp at he ⊢
    omega
  have hge : twoPow (ulpExp y + 52) ≤ y := by rw [hb]; exact h1
  have hsplit : twoPow (ulpExp y + 52) = ((2 ^ 52 : ℤ) : ℚ) * twoPow (ulpExp y) := by
    rw [add_comm, twoPow_add, twoPow_52]
  have hdiv : ((2 ^ 52 : ℤ) : ℚ) ≤ y / twoPow (ulpExp y) := by
    rw [le_div_iff₀ (twoPow_pos _), ← hsplit]
    exact hge
  have hr := roundHalfEven_mono hdiv
  rw [roundHalfEven_intCast] at hr
  unfold roundPos
  rw [hsplit]
  exact mul_le_mul_of_nonneg_right (by exact_mod_cast hr) (le_of_lt (twoPow_pos _))

theorem roundPos_mono {x y : ℚ} (hx : 0 ≤ x) (hxy : x ≤ y) :
    roundPos x ≤ roundPos y := by
  rcases eq_or_lt_of_le hx with h0 | hpos
  · rw [← h0, roundPos_zero]
    exact roundPos_nonneg y (le_trans hx hxy)
  · have hy : 0 < y := lt_of_lt_of_le hpos hxy
    have he := ulpExp_mono hpos hxy
    rcases eq_or_lt_of_le he with heq | hlt
    · unfold roundPos
      rw [heq]
      have hdiv : x / twoPow (ulpExp y) ≤ y / twoPow (ulpExp y) :=
        div_le_div_of_nonneg_right hxy (le_of_lt (twoPow_pos _))
      have hr := roundHalfEven_mono hdiv
      exact mul_le_mul_of_nonneg_right (by exact_mod_cast hr) (le_of_lt (twoPow_pos _))
    · have h1 := roundPos_le_twoPow x hpos
      have hmin : -1074 ≤ ulpExp x := by unfold ulpExp; omega
      have h2 := twoPow_le_roundPos y hy (by omega)
      have h3 : twoPow (ulpExp x + 53) ≤ twoPow (ulpExp y + 52) := twoPow_le (by omega)
      exact le_trans h1 (le_trans h3 h2)

theorem rnd_ne_nan (x : ℚ) : rnd x ≠ nan := by
  unfold rnd
  split_ifs <;> simp

theorem rnd_mono {x y : ℚ} (hxy : x ≤ y) : (rnd x).le (rnd y) = true := by
  unfold rnd
  by_cases hx : x < 0
  · rw [if_pos hx]
    by_cases hy : y < 0
    · rw [if_pos hy]
      have hm : roundPos (-y) ≤ roundPos (-x) := roundPos_mono (by linarith) (by linarith)
      split_ifs with h1 h2 h2
      · rfl
      · rfl
      · exact absurd (le_trans h2 hm) h1
      · simp only [le, decide_eq_true_eq]
        linarith
    · rw [if_neg hy]
      have hp : 0 ≤ roundPos y := roundPos_nonneg y (not_lt.mp hy)
      have hn : 0 ≤ roundPos (-x) := roundPos_nonneg (-x) (by linarith)
      split_ifs
      · rfl
      · rfl
      · rfl
      · simp only [le, decide_eq_true_eq]
        linarith
  · rw [if_neg hx]
    have hy : ¬ y < 0 := by
      intro h
      exact hx (lt_of_le_of_lt hxy h)
    rw [if_neg hy]
    have hm : roundPos x ≤ roundPos y := roundPos_mono (not_lt.mp hx) hxy
    split_ifs with h1 h2 h2
    · rfl
    · exact absurd (le_trans h1 hm) h2
    · rfl
    · simp only [le, decide_eq_true_eq]
      exact hm

theorem rnd_between (x lo hi a b : ℚ) (hlo : rnd lo = fin a) (hhi : rnd hi = fin b)
    (h1 : lo ≤ x) (h2 : x ≤ hi) : ∃ r, rnd x = fin r ∧ a ≤ r ∧ r ≤ b := by
  have m1 := rnd_mono h1
  have m2 := rnd_mono h2
  rw [hlo] at m1
  rw [hhi] at m2
  cases hr : rnd x with
  | nan => exact absurd hr (rnd_ne_nan x)
  | inf s =>
    rw [hr] at m1 m2
    cases s <;> simp [le] at m1 m2
  | fin r =>
    rw [hr] at m1 m2
    simp only [le, decide_eq_true_eq] at m1 m2
    exact ⟨r, rfl, m1, m2⟩

end F64

theorem goRound_nearest (q : ℚ) : IsNearestAway q (goRound q) := by
  unfold IsNearestAway goRound
  by_cases hq : 0 ≤ q
  · rw [if_pos hq]
    have h1 : ((⌊q + 1 / 2⌋ : ℤ) : ℚ) ≤ q + 1 / 2 := Int.floor_le _
    have h2 : q + 1 / 2 < ((⌊q + 1 / 2⌋ : ℤ) : ℚ) + 1 := Int.lt_floor_add_one _
    constructor
    · rw [abs_le]; constructor <;> linarith
    · intro ht
      have h3 : ((⌊q + 1 / 2⌋ : ℤ) : ℚ) - q = 1 / 2 := by
        rcases abs_eq (by norm_num : (0 : ℚ) ≤ 1 / 2) |>.mp ht with h | h
        · exact h
        · linarith
      rw [abs_of_nonneg hq, abs_of_nonneg (by linarith)]
      linarith
  · rw [if_neg hq]
    have hq' : q < 0 := not_le.mp hq
    have h1 : ((⌊-q + 1 / 2⌋ : ℤ) : ℚ) ≤ -q + 1 / 2 := Int.floor_le _
    have h2 : -q + 1 / 2 < ((⌊-q + 1 / 2⌋ : ℤ) : ℚ) + 1 := Int.lt_floor_add_one _
    push_cast
    constructor
    · rw [abs_le]; constructor <;> linarith
    · intro ht
      have h3 : -((⌊-q + 1 / 2⌋ : ℤ) : ℚ) - q = -(1 / 2) := by
        rcases abs_eq (by norm_num : (0 : ℚ) ≤ 1 / 2) |>.mp ht with h | h
        · linarith
        · exact h
      rw [abs_of_neg hq', abs_of_neg (by linarith)]
      linarith

theorem goRound_abs_le (q : ℚ) (b : ℤ) (h : |q| ≤ (b : ℚ)) :
    -b ≤ goRound q ∧ goRound q ≤ b := by
  obtain ⟨h1, _⟩ := goRound_nearest q
  rw [abs_le] at h h1
  have ha : ((goRound q : ℤ) : ℚ) < (b : ℚ) + 1 := by linarith
  have hb : -(b : ℚ) - 1 < ((goRound q : ℤ) : ℚ) := by linarith
  have ha' : goRound q < b + 1 := by exact_mod_cast ha
  have hb' : -b - 1 < goRound q := by exact_mod_cast hb
  omega

namespace F64

theorem truncate_intCast (n : ℤ) : truncate (n : ℚ) = n := by
  unfold truncate
  split_ifs
  · exact Int.floor_intCast n
  · rw [← Int.cast_neg, Int.floor_intCast]; ring

theorem toInt_Round (conv : F64 → ℤ) (q : ℚ) (h : |q| ≤ 2 ^ 63 - 1) :
    toInt conv (Round (fin q)) = goRound q := by
  have hb := goRound_abs_le q (2 ^ 63 - 1) (by push_cast; linarith)
  unfold Round toInt
  simp only
  rw [truncate_intCast, if_pos (by omega)]

theorem add_fin (a b : ℚ) : (fin a : F64) + fin b = rnd (a + b) := rfl

theorem mul_fin (a b : ℚ) : (fin a : F64) * fin b = rnd (a * b) := rfl

theorem sub_fin (a b : ℚ) : (fin a : F64) - fin b = rnd (a + -b) := rfl

theorem lit_0_1 : lit 0.1 = fin (3602879701896397 / 36028797018963968) := by decide!

theorem lit_0_08 : lit 0.08 = fin (5764607523034235 / 72057594037927936) := by decide!

theorem lit_0_02 : lit 0.02 = fin (5764607523034235 / 288230376151711744) := by decide!

theorem lit_1_3 : lit 1.3 = fin (5854679515581645 / 4503599627370496) := by decide!

theorem lit_0_2 : lit 0.2 = fin (3602879701896397 / 18014398509481984) := by decide!

theorem lit_0_15 : lit 0.15 = fin (5404319552844595 / 36028797018963968) := by decide!

theorem lit_0_95 : lit 0.95 = fin (4278419646001971 / 4503599627370496) := by decide!

theorem lit_1_05 : lit 1.05 = fin (4728779608739021 / 4503599627370496) := by decide!

theorem rnd_1_3 : rnd (5854679515581645 / 4503599627370496) =
    fin (5854679515581645 / 4503599627370496) := by decide!

theorem rnd_pow63 : rnd (2 ^ 63) = fin (2 ^ 63) ∧ rnd (-(2 ^ 63)) = fin (-(2 ^ 63)) := by
  decide!

theorem rnd_pow64 : rnd (2 ^ 64) = fin (2 ^ 64) ∧ rnd (-(2 ^ 64)) = fin (-(2 ^ 64)) := by
  decide!

theorem rnd_pow127 :
    rnd (2 ^ 127) = fin (2 ^ 127) ∧ rnd (-(2 ^ 127)) = fin (-(2 ^ 127)) := by
  decide!

theorem rnd_pow128 :
    rnd (2 ^ 128) = fin (2 ^ 128) ∧ rnd (-(2 ^ 128)) = fin (-(2 ^ 128)) := by
  decide!

end F64

theorem wrap64_range (n : ℤ) : -(2 ^ 63) ≤ wrap64 n ∧ wrap64 n < 2 ^ 63 := by
  unfold wrap64
  omega

theorem wrap64_of_range (n : ℤ) (h1 : -(2 ^ 63) ≤ n) (h2 : n < 2 ^ 63) : wrap64 n = n := by
  unfold wrap64
  omega

namespace F64

theorem ofInt_wrap64 (g : ℤ) :
    ∃ r, ofInt (wrap64 g) = fin r ∧ -(2 ^ 63) ≤ r ∧ r ≤ 2 ^ 63 := by
  obtain ⟨h1, h2⟩ := wrap64_range g
  have h1' : (-(2 ^ 63) : ℚ) ≤ (wrap64 g : ℚ) := by exact_mod_cast h1
  have h2' : (wrap64 g : ℚ) ≤ 2 ^ 63 := by exact_mod_cast le_of_lt h2
  exact rnd_between _ _ _ _ _ rnd_pow63.2 rnd_pow63.1 h1' h2'

theorem gradeTerm_fin (g : ℤ) :
    ∃ t, lit 0.1 - ofInt (wrap64 g) * (lit 0.08 + ofInt (wrap64 g) * lit 0.02) = fin t := by
  obtain ⟨r, hr, hr1, hr2⟩ := ofInt_wrap64 g
  rw [hr, lit_0_02, lit_0_08, lit_0_1, mul_fin]
  obtain ⟨v, hv, hv1, hv2⟩ := rnd_between
    (r * (5764607523034235 / 288230376151711744)) _ _ _ _ rnd_pow63.2 rnd_pow63.1
    (by nlinarith) (by nlinarith)
  rw [hv, add_fin]
  obtain ⟨w, hw, hw1, hw2⟩ := rnd_between
    (5764607523034235 / 72057594037927936 + v) _ _ _ _ rnd_pow64.2 rnd_pow64.1
    (by linarith) (by linarith)
  rw [hw, mul_fin]
  have habs : |r * w| ≤ 2 ^ 127 := by
    rw [abs_mul]
    have hra : |r| ≤ 2 ^ 63 := abs_le.mpr ⟨hr1, hr2⟩
    have hwa : |w| ≤ 2 ^ 64 := abs_le.mpr ⟨hw1, hw2⟩
    calc |r| * |w| ≤ 2 ^ 63 * 2 ^ 64 :=
          mul_le_mul hra hwa (abs_nonneg _) (by positivity)
      _ = 2 ^ 127 := by norm_num
  rw [abs_le] at habs
  obtain ⟨z, hz, hz1, hz2⟩ := rnd_between (r * w) _ _ _ _ rnd_pow127.2 rnd_pow127.1
    habs.1 habs.2
  rw [hz, sub_fin]
  obtain ⟨t, ht, _, _⟩ := rnd_between (3602879701896397 / 36028797018963968 + -z) _ _ _ _
    rnd_pow128.2 rnd_pow128.1 (by linarith) (by linarith)
  exact ⟨t, ht⟩

theorem add_fin_ne_nan (x : F64) (t : ℚ) (hx : x ≠ nan) : x + fin t ≠ nan := by
  cases x with
  | nan => exact absurd rfl hx
  | inf s => intro h; cases h
  | fin a => exact rnd_ne_nan _

theorem le_of_lt_eq_false (a b : F64) (ha : a ≠ nan) (hb : b ≠ nan)
    (h : a.lt b = false) : b.le a = true := by
  cases a with
  | nan => exact absurd rfl ha
  | inf s =>
    cases b with
    | nan => exact absurd rfl hb
    | inf t => cases s <;> cases t <;> simp_all [lt, le]
    | fin b => cases s <;> simp_all [lt, le]
  | fin a =>
    cases b with
    | nan => exact absurd rfl hb
    | inf t => cases t <;> simp_all [lt, le]
    | fin b =>
      simp only [lt, decide_eq_false_iff_not, not_lt] at h
      simp only [le, decide_eq_true_eq]
      exact h

theorem le_add_lit_0_15 (x : F64) (h : (lit 1.3).le x = true) :
    (lit 1.3).le (x + lit 0.15) = true := by
  rw [lit_1_3] at h ⊢
  rw [lit_0_15]
  cases x with
  | nan => simp [le] at h
  | inf s =>
    cases s
    · rfl
    · simp [le] at h
  | fin a =>
    simp only [le, decide_eq_true_eq] at h
    rw [add_fin]
    have := rnd_mono (show (5854679515581645 / 4503599627370496 : ℚ) ≤
      a + 5404319552844595 / 36028797018963968 by linarith)
    rw [rnd_1_3] at this
    exact this

theorem lit_1_3_le_Max (y : F64) (hy : y ≠ nan) : (lit 1.3).le (Max (lit 1.3) y) = true := by
  rw [lit_1_3]
  cases y with
  | nan => exact absurd rfl hy
  | inf s => cases s <;> simp [Max, le]
  | fin b => simp [Max, le]

theorem sub_lit_ne_nan (x : F64) (hx : x ≠ nan) : x - lit 0.2 ≠ nan := by
  rw [lit_0_2]
  cases x with
  | nan => exact absurd rfl hx
  | inf s => intro h; cases h
  | fin a => exact rnd_ne_nan _

end F64

namespace Binary64

theorem clampedEF_floor (input : ReviewInput) (h : input.CurrentEF ≠ F64.nan) :
    (F64.lit 1.3).le (clampedEF input) = true := by
  unfold clampedEF
  obtain ⟨t, ht⟩ := F64.gradeTerm_fin (3 - input.Grade)
  simp only
  rw [ht]
  have hne := F64.add_fin_ne_nan input.CurrentEF t h
  by_cases hlt : (input.CurrentEF + F64.fin t).lt (F64.lit 1.3) = true
  · rw [if_pos hlt, F64.lit_1_3]
    simp [F64.le]
  · rw [if_neg hlt]
    exact F64.le_of_lt_eq_false _ _ hne (by rw [F64.lit_1_3]; simp)
      (by simpa using hlt)

theorem preFuzz_snd (conv : F64 → ℤ) (input : ReviewInput) :
    (preFuzz conv input).2 = clampedEF input ∨
      (preFuzz conv input).2 = clampedEF input + F64.lit 0.15 := by
  unfold preFuzz
  simp only
  split_ifs <;> simp

end Binary64

/-! ## Claims on the scheduling engine in the arithmetic of the machine -/

/-- C2, as stated, fails: for `CurrentEF = NaN` the returned ease factor is NaN, on
the AGAIN branch (`math.Max(1.3, NaN)`) and on the other one (`NaN < 1.3` is false, so
the floor is not applied), and `1.3 <= NaN` is false. -/
theorem ease_factor_nan_counterexample :
    (Binary64.CalculateNextReview utcZone convAmd64 0 (F64.fin 0)
      ⟨1, F64.nan, 0, 0, F64.fin 0⟩).EaseFactor = F64.nan ∧
    (Binary64.CalculateNextReview utcZone convAmd64 0 (F64.fin 0)
      ⟨1, F64.nan, 0, 2, F64.fin 0⟩).EaseFactor = F64.nan ∧
    (F64.lit 1.3).le F64.nan = false := by
  decide!

/-- C2, amended: for every input (any grade, also outside 0..3, any interval,
repetitions and elapsed days, the infinities and NaN included), every clock, every
result of an out-of-range conversion and every fuzz draw, the output has
`Interval ≥ 1`, and it has `EaseFactor ≥ 1.3` whenever `CurrentEF` is not NaN. -/
theorem ease_floor_unless_nan (zone : Zone) (conv : F64 → ℤ) (now : ℤ) (u : F64)
    (input : Binary64.ReviewInput) :
    1 ≤ (Binary64.CalculateNextReview zone conv now u input).Interval ∧
    (input.CurrentEF ≠ F64.nan →
      (F64.lit 1.3).le
        (Binary64.CalculateNextReview zone conv now u input).EaseFactor = true) := by
  unfold Binary64.CalculateNextReview
  split_ifs with hg
  · refine ⟨le_refl _, fun h => ?_⟩
    exact F64.lit_1_3_le_Max _ (F64.sub_lit_ne_nan _ h)
  · refine ⟨floorOne_ge _, fun h => ?_⟩
    show (F64.lit 1.3).le (Binary64.preFuzz conv input).2 = true
    rcases Binary64.preFuzz_snd conv input with h1 | h1
    · rw [h1]; exact Binary64.clampedEF_floor input h
    · rw [h1]; exact F64.le_add_lit_0_15 _ (Binary64.clampedEF_floor input h)

theorem ease_floor_unless_nan_witness :
    (F64.lit 1.3).le
      (Binary64.CalculateNextReview exampleZone convAmd64 0 (F64.fin (1 / 2))
        ⟨30, F64.lit 2.5, 7, 3, F64.fin 100⟩).EaseFactor = true :=
  (ease_floor_unless_nan exampleZone convAmd64 0 (F64.fin (1 / 2))
    ⟨30, F64.lit 2.5, 7, 3, F64.fin 100⟩).2 (by decide!)

namespace F64

theorem clamp_eq_Max (e : F64) :
    (if e.lt (lit 1.3) = true then lit 1.3 else e) = Max (lit 1.3) e := by
  rw [lit_1_3]
  cases e with
  | nan => rfl
  | inf s => cases s <;> rfl
  | fin b =>
    by_cases h : b < 5854679515581645 / 4503599627370496
    · simp [lt, Max, h, max_eq_left (le_of_lt h)]
    · simp [lt, Max, h, max_eq_right (not_lt.mp h)]

end F64

theorem isNearestAway_unique_aux (q : ℚ) (m n : ℤ) (hm : IsNearestAway q m)
    (hn : IsNearestAway q n) (hlt : m < n) : False := by
  obtain ⟨hm1, hm2⟩ := hm
  obtain ⟨hn1, hn2⟩ := hn
  rw [abs_le] at hm1 hn1
  have h1 : (m : ℚ) + 1 ≤ (n : ℚ) := by exact_mod_cast hlt
  have hmq : (m : ℚ) - q = -(1 / 2) := by linarith
  have hnq : (n : ℚ) - q = 1 / 2 := by linarith
  have a1 := hm2 (by rw [hmq]; norm_num)
  have a2 := hn2 (by rw [hnq]; norm_num)
  rcases le_or_lt 0 q with hq | hq
  · have hm0 : (-1 : ℚ) < (m : ℚ) := by linarith
    have hm0' : (0 : ℤ) ≤ m := by
      have : (-1 : ℤ) < m := by exact_mod_cast hm0
      omega
    have hm0'' : (0 : ℚ) ≤ (m : ℚ) := by exact_mod_cast hm0'
    rw [abs_of_nonneg hq, abs_of_nonneg hm0''] at a1
    linarith
  · have hn0 : (n : ℚ) < 1 := by linarith
    have hn0' : n ≤ 0 := by
      have : n < 1 := by exact_mod_cast hn0
      omega
    have hn0'' : (n : ℚ) ≤ 0 := by exact_mod_cast hn0'
    rw [abs_of_neg hq, abs_of_nonpos hn0''] at a2
    linarith

theorem isNearestAway_unique (q : ℚ) (m n : ℤ) (hm : IsNearestAway q m)
    (hn : IsNearestAway q n) : m = n := by
  by_contra hne
  rcases lt_or_gt_of_ne hne with hlt | hgt
  · exact isNearestAway_unique_aux q m n hm hn hlt
  · exact isNearestAway_unique_aux q n m hn hm hgt

namespace Binary64

theorem fields_of_zone (zone : Zone) (conv : F64 → ℤ) (now : ℤ) (u : F64)
    (input : ReviewInput) :
    (CalculateNextReview zone conv now u input).Interval =
        (CalculateNextReview utcZone conv 0 u input).Interval ∧
    (CalculateNextReview zone conv now u input).EaseFactor =
        (CalculateNextReview utcZone conv 0 u input).EaseFactor ∧
    (CalculateNextReview zone conv now u input).Repetitions =
        (CalculateNextReview utcZone conv 0 u input).Repetitions := by
  unfold CalculateNextReview
  split_ifs <;> exact ⟨rfl, rfl, rfl⟩

theorem preFuzz_late_stage (conv : F64 → ℤ) (input : ReviewInput)
    (hr : 2 ≤ input.Repetitions) (hr2 : input.Repetitions < 2 ^ 63)
    (hb : bonusFires input = false) :
    preFuzz conv input =
      (F64.toInt conv (F64.Round (calculatedDays input)), clampedEF input) := by
  have h1 : wrap64 (input.Repetitions + 1) ≠ 1 := by unfold wrap64; omega
  have h2 : wrap64 (input.Repetitions + 1) ≠ 2 := by unfold wrap64; omega
  unfold preFuzz
  simp only
  rw [if_neg h1, if_neg h2, hb]
  simp

theorem bonusFires_zero (input : ReviewInput) (ha : input.ActualDays = F64.fin 0) :
    bonusFires input = false := by
  unfold bonusFires
  rw [ha]
  simp [F64.lt]

theorem preFuzz_fst_of_value (conv : F64 → ℤ) (input : ReviewInput)
    (hr : 2 ≤ input.Repetitions) (hr2 : input.Repetitions < 2 ^ 63)
    (hb : bonusFires input = false) (q : ℚ) (hq : calculatedDays input = F64.fin q)
    (hrange : |q| ≤ 2 ^ 63 - 1) :
    (preFuzz conv input).1 = goRound q := by
  rw [preFuzz_late_stage conv input hr hr2 hb, hq]
  exact F64.toInt_Round conv q hrange

end Binary64

/-- C4, as stated, fails. Read in exact arithmetic: for `CurrentInterval = 5`, the
float64 nearest to 2.3 as `CurrentEF`, GOOD and `Repetitions = 2` the product
`CurrentInterval * newEF * m` is below 11.5, nearest to 11, while the pre-fuzz interval
is 12. Read in float64: for `CurrentInterval = 2 ^ 62` and `CurrentEF = 2.5` the product
is `5 * 2 ^ 61`, which no `int` holds; the conversion of amd64 gives the pre-fuzz
interval `-2 ^ 63`, and the returned interval is 1. -/
theorem late_stage_counterexample :
    (F64.lit 2.3 = F64.fin (2589569785738035 / 1125899906842624) ∧
      IsNearestAway
        (5 * max 1.3 (2589569785738035 / 1125899906842624 + 0.1 -
          (3 - 2) * (0.08 + (3 - 2) * 0.02)) * 1.0) 11 ∧
      (Binary64.preFuzz convAmd64 ⟨5, F64.lit 2.3, 2, 2, F64.fin 0⟩).1 = 12) ∧
    (Binary64.calculatedDays ⟨2 ^ 62, F64.lit 2.5, 2, 2, F64.fin 0⟩ =
        F64.fin 11529215046068469760 ∧
      IsNearestAway 11529215046068469760 11529215046068469760 ∧
      (Binary64.preFuzz convAmd64 ⟨2 ^ 62, F64.lit 2.5, 2, 2, F64.fin 0⟩).1 = -(2 ^ 63) ∧
      (Binary64.CalculateNextReview utcZone convAmd64 0 (F64.fin (1 / 2))
        ⟨2 ^ 62, F64.lit 2.5, 2, 2, F64.fin 0⟩).Interval = 1) := by
  refine ⟨⟨by decide!, ?_, by decide!⟩, by decide!, ?_, by decide!, by decide!⟩
  · unfold IsNearestAway
    norm_num [abs_lt, abs_le, abs_of_neg, abs_of_pos]
  · unfold IsNearestAway
    norm_num

namespace Binary64

theorem calculatedDays_eq (input : ReviewInput)
    (hg : input.Grade = 1 ∨ input.Grade = 2 ∨ input.Grade = 3) :
    calculatedDays input =
      F64.ofInt input.CurrentInterval *
        F64.Max (F64.lit 1.3)
          (input.CurrentEF + (F64.lit 0.1 - F64.ofInt (3 - input.Grade) *
            (F64.lit 0.08 + F64.ofInt (3 - input.Grade) * F64.lit 0.02))) *
        (if input.Grade = 1 then F64.lit 0.8 else if input.Grade = 2 then F64.lit 1.0
          else F64.lit 1.1) := by
  have hw : wrap64 (3 - input.Grade) = 3 - input.Grade :=
    wrap64_of_range _ (by omega) (by omega)
  have hm : modifier input =
      (if input.Grade = 1 then F64.lit 0.8 else if input.Grade = 2 then F64.lit 1.0
        else F64.lit 1.1) := by
    unfold modifier
    rcases hg with h | h | h <;> simp [h]
  unfold calculatedDays clampedEF
  simp only
  rw [F64.clamp_eq_Max, hw, hm]

theorem scenario_values :
    calculatedDays ⟨7, F64.lit 2.6, 2, 2, F64.fin 0⟩ =
      F64.fin (5122844576133939 / 281474976710656) ∧
    goRound (5122844576133939 / 281474976710656) = 18 ∧
    F64.ofInt 18 * (F64.lit 0.95 + F64.fin (1 / 2) * F64.lit 0.1) = F64.fin 18 ∧
    calculatedDays ⟨5, F64.lit 2.3, 2, 2, F64.fin 0⟩ = F64.fin (23 / 2) ∧
    goRound (23 / 2) = 12 ∧
    calculatedDays ⟨25, F64.lit 2.3, 2, 2, F64.fin 0⟩ =
      F64.fin (8092405580431359 / 140737488355328) ∧
    goRound (8092405580431359 / 140737488355328) = 57 := by
  decide!

end Binary64

/-- C4, amended: for every input with `Grade ∈ {1, 2, 3}`, `Repetitions ≥ 2` and
`ActualDays = 0` the engine returns `Repetitions + 1` in the arithmetic of `int`
(`Repetitions + 1` itself below the largest `int`), and its interval is the fuzz and
floor steps applied to the pre-fuzz interval. Whenever the float64 value `q` of
`CurrentInterval * newEF * m`, with
`newEF = max(1.3, CurrentEF + (0.1 - (3 - Grade) * (0.08 + (3 - Grade) * 0.02)))` and
`m` = 0.8, 1.0, 1.1 for HARD, GOOD, EASY, is finite and at most `2 ^ 63 - 1` in absolute
value, the pre-fuzz interval is the integer nearest to `q`, a tie going away from zero.
In particular `Repetitions = 2`, `CurrentInterval = 7`, `CurrentEF = 2.6`, GOOD and the
draw 0.5 (fuzz factor 1.0) give `Repetitions = 3` and `Interval = 18`; with
`CurrentEF = 2.3` the intervals 5 and 25 give the pre-fuzz intervals 12 and 57. -/
theorem late_stage_binary64 :
    (∀ (zone : Zone) (conv : F64 → ℤ) (now : ℤ) (u : F64) (input : Binary64.ReviewInput),
      (input.Grade = 1 ∨ input.Grade = 2 ∨ input.Grade = 3) →
      2 ≤ input.Repetitions → input.Repetitions < 2 ^ 63 →
      input.ActualDays = F64.fin 0 →
      (Binary64.CalculateNextReview zone conv now u input).Repetitions =
        wrap64 (input.Repetitions + 1) ∧
      (input.Repetitions + 1 < 2 ^ 63 →
        (Binary64.CalculateNextReview zone conv now u input).Repetitions =
          input.Repetitions + 1) ∧
      (Binary64.CalculateNextReview zone conv now u input).Interval =
        floorOne (Binary64.fuzz conv u (Binary64.preFuzz conv input).1) ∧
      (∀ q : ℚ,
        F64.ofInt input.CurrentInterval *
          F64.Max (F64.lit 1.3)
            (input.CurrentEF + (F64.lit 0.1 - F64.ofInt (3 - input.Grade) *
              (F64.lit 0.08 + F64.ofInt (3 - input.Grade) * F64.lit 0.02))) *
          (if input.Grade = 1 then F64.lit 0.8 else if input.Grade = 2 then F64.lit 1.0
            else F64.lit 1.1) = F64.fin q →
        |q| ≤ 2 ^ 63 - 1 →
        IsNearestAway q (Binary64.preFuzz conv input).1)) ∧
    (∀ (zone : Zone) (conv : F64 → ℤ) (now : ℤ),
      (Binary64.preFuzz conv ⟨7, F64.lit 2.6, 2, 2, F64.fin 0⟩).1 = 18 ∧
      (Binary64.CalculateNextReview zone conv now (F64.fin (1 / 2))
        ⟨7, F64.lit 2.6, 2, 2, F64.fin 0⟩).Repetitions = 3 ∧
      (Binary64.CalculateNextReview zone conv now (F64.fin (1 / 2))
        ⟨7, F64.lit 2.6, 2, 2, F64.fin 0⟩).Interval = 18) ∧
    (∀ conv : F64 → ℤ,
      (Binary64.preFuzz conv ⟨5, F64.lit 2.3, 2, 2, F64.fin 0⟩).1 = 12 ∧
      (Binary64.preFuzz conv ⟨25, F64.lit 2.3, 2, 2, F64.fin 0⟩).1 = 57) := by
  have gen : ∀ (zone : Zone) (conv : F64 → ℤ) (now : ℤ) (u : F64)
      (input : Binary64.ReviewInput),
      (input.Grade = 1 ∨ input.Grade = 2 ∨ input.Grade = 3) →
      2 ≤ input.Repetitions → input.Repetitions < 2 ^ 63 →
      input.ActualDays = F64.fin 0 →
      (Binary64.CalculateNextReview zone conv now u input).Repetitions =
        wrap64 (input.Repetitions + 1) ∧
      (input.Repetitions + 1 < 2 ^ 63 →
        (Binary64.CalculateNextReview zone conv now u input).Repetitions =
          input.Repetitions + 1) ∧
      (Binary64.CalculateNextReview zone conv now u input).Interval =
        floorOne (Binary64.fuzz conv u (Binary64.preFuzz conv input).1) ∧
      (∀ q : ℚ,
        F64.ofInt input.CurrentInterval *
          F64.Max (F64.lit 1.3)
            (input.CurrentEF + (F64.lit 0.1 - F64.ofInt (3 - input.Grade) *
              (F64.lit 0.08 + F64.ofInt (3 - input.Grade) * F64.lit 0.02))) *
          (if input.Grade = 1 then F64.lit 0.8 else if input.Grade = 2 then F64.lit 1.0
            else F64.lit 1.1) = F64.fin q →
        |q| ≤ 2 ^ 63 - 1 →
        IsNearestAway q (Binary64.preFuzz conv input).1) := by
    intro zone conv now u input hg hr hr2 ha
    have hg0 : input.Grade ≠ 0 := by omega
    have hrep : (Binary64.CalculateNextReview zone conv now u input).Repetitions =
        wrap64 (input.Repetitions + 1) := by
      unfold Binary64.CalculateNextReview; rw [if_neg hg0]
    refine ⟨hrep, fun h => ?_, ?_, ?_⟩
    · rw [hrep]
      exact wrap64_of_range _ (by omega) h
    · unfold Binary64.CalculateNextReview; rw [if_neg hg0]
    · intro q hq hrange
      rw [← Binary64.calculatedDays_eq input hg] at hq
      rw [Binary64.preFuzz_fst_of_value conv input hr hr2
        (Binary64.bonusFires_zero input ha) q hq hrange]
      exact goRound_nearest q
  obtain ⟨v1, v2, v3, v4, v5, v6, v7⟩ := Binary64.scenario_values
  have hpre : ∀ conv : F64 → ℤ,
      (Binary64.preFuzz conv ⟨7, F64.lit 2.6, 2, 2, F64.fin 0⟩).1 = 18 := by
    intro conv
    rw [Binary64.preFuzz_fst_of_value conv _ (by decide) (by decide)
      (Binary64.bonusFires_zero _ rfl) _ v1 (by norm_num [abs_le]), v2]
  refine ⟨gen, fun zone conv now => ⟨hpre conv, ?_, ?_⟩, fun conv => ⟨?_, ?_⟩⟩
  · rw [(gen zone conv now (F64.fin (1 / 2)) ⟨7, F64.lit 2.6, 2, 2, F64.fin 0⟩
      (by decide) (by decide) (by decide) rfl).1]
    decide
  · rw [(gen zone conv now (F64.fin (1 / 2)) ⟨7, F64.lit 2.6, 2, 2, F64.fin 0⟩
      (by decide) (by decide) (by decide) rfl).2.2.1, hpre conv]
    unfold Binary64.fuzz
    rw [if_pos (by decide)]
    simp only
    rw [v3, F64.toInt_Round conv 18 (by norm_num [abs_le])]
    have h18 : goRound 18 = 18 := by exact_mod_cast goRound_intCast 18
    rw [h18]
    decide
  · rw [Binary64.preFuzz_fst_of_value conv _ (by decide) (by decide)
      (Binary64.bonusFires_zero _ rfl) _ v4 (by norm_num [abs_le]), v5]
  · rw [Binary64.preFuzz_fst_of_value conv _ (by decide) (by decide)
      (Binary64.bonusFires_zero _ rfl) _ v6 (by norm_num [abs_le]), v7]

theorem late_stage_binary64_witness :
    (Binary64.CalculateNextReview utcZone convAmd64 0 (F64.fin 0)
      ⟨10, F64.lit 2.5, 4, 1, F64.fin 0⟩).Repetitions = 4 + 1 :=
  (late_stage_binary64.1 utcZone convAmd64 0 (F64.fin 0)
    ⟨10, F64.lit 2.5, 4, 1, F64.fin 0⟩ (by decide) (by decide) (by decide) rfl).2.1
    (by decide)

namespace F64

theorem rnd_mono_fin {x y a b : ℚ} (hx : rnd x = fin a) (hy : rnd y = fin b)
    (h : x ≤ y) : a ≤ b := by
  have := rnd_mono h
  rw [hx, hy] at this
  simpa [le] using this

theorem fuzz_values :
    rnd 0 = fin 0 ∧
    rnd (3602879701896397 / 36028797018963968) =
      fin (3602879701896397 / 36028797018963968) ∧
    rnd (4278419646001971 / 4503599627370496 + 0) =
      fin (4278419646001971 / 4503599627370496) ∧
    rnd (4278419646001971 / 4503599627370496 + 3602879701896397 / 36028797018963968) =
      fin (4728779608739021 / 4503599627370496) ∧
    rnd 11 = fin 11 ∧
    rnd (2 ^ 63) = fin (2 ^ 63) ∧
    rnd 10 = fin 10 ∧
    rnd (2 ^ 63 * (4728779608739021 / 4503599627370496)) = fin 9684540638697515008 := by
  decide!

end F64

/-- C6, as stated, fails. Read in exact arithmetic: for `CurrentInterval = 4`,
`CurrentEF = 2.75`, GOOD and `Repetitions = 2` the pre-fuzz interval is 11, and with the
draw `409418147942766 / 2 ^ 53` the value `11 * (0.95 + 0.1 * u)` is below 10.5, nearest
to 10, while the returned interval is 11. Read in float64: for `CurrentInterval = 2 ^ 62`
and `CurrentEF = 1.96875` the pre-fuzz interval is 9079256848778919936; with the draw 0.75
the fuzzed value is above `2 ^ 63`, no `int` holds it, and with the conversion of amd64
the returned interval is 1, far below the value of `0.95 * n`. -/
theorem fuzz_counterexample :
    ((Binary64.preFuzz convAmd64 ⟨4, F64.fin (11 / 4), 2, 2, F64.fin 0⟩).1 = 11 ∧
      IsNearestAway (11 * (0.95 + 0.1 * (409418147942766 / 2 ^ 53))) 10 ∧
      (Binary64.CalculateNextReview utcZone convAmd64 0
        (F64.fin (409418147942766 / 2 ^ 53))
        ⟨4, F64.fin (11 / 4), 2, 2, F64.fin 0⟩).Interval = 11) ∧
    ((Binary64.preFuzz convAmd64 ⟨2 ^ 62, F64.fin (63 / 32), 2, 2, F64.fin 0⟩).1 =
        9079256848778919936 ∧
      F64.ofInt 9079256848778919936 * (F64.lit 0.95 + F64.fin (3 / 4) * F64.lit 0.1) =
        F64.fin 9306238269998391296 ∧
      F64.ofInt 9079256848778919936 * F64.lit 0.95 = F64.fin 8625294006339973120 ∧
      (Binary64.CalculateNextReview utcZone convAmd64 0 (F64.fin (3 / 4))
        ⟨2 ^ 62, F64.fin (63 / 32), 2, 2, F64.fin 0⟩).Interval = 1) := by
  refine ⟨⟨by decide!, ?_, by decide!⟩, by decide!⟩
  unfold IsNearestAway
  norm_num [abs_lt, abs_le, abs_of_neg, abs_of_pos]

namespace Binary64

theorem fuzz_in_range (conv : F64 → ℤ) (q : ℚ) (n : ℤ) (hq0 : 0 ≤ q) (hq1 : q < 1)
    (hn : 10 < n) (hn2 : n < 2 ^ 63) :
    ∃ v a b : ℚ,
      F64.ofInt n * (F64.lit 0.95 + F64.fin q * F64.lit 0.1) = F64.fin v ∧
      F64.ofInt n * F64.lit 0.95 = F64.fin a ∧
      F64.ofInt n * F64.lit 1.05 = F64.fin b ∧
      a ≤ v ∧ v ≤ b ∧ 10 ≤ v ∧
      (v ≤ 2 ^ 63 - 1 → fuzz conv (F64.fin q) n = goRound v) := by
  obtain ⟨e0, e1, e2, e3, e4, e5, e6, e7⟩ := F64.fuzz_values
  have hn' : (11 : ℚ) ≤ (n : ℚ) := by exact_mod_cast hn
  have hn2' : (n : ℚ) ≤ 2 ^ 63 := by exact_mod_cast hn2.le
  obtain ⟨m, hm, hm1, hm2⟩ := F64.rnd_between (n : ℚ) _ _ _ _ e4 e5 hn' hn2'
  obtain ⟨p, hp, hp1, hp2⟩ := F64.rnd_between
    (q * (3602879701896397 / 36028797018963968)) _ _ _ _ e0 e1
    (by positivity) (by nlinarith)
  obtain ⟨f, hf, hf1, hf2⟩ := F64.rnd_between
    (4278419646001971 / 4503599627370496 + p) _ _ _ _ e2 e3 (by linarith) (by linarith)
  have hmf1 : (10 : ℚ) ≤ m * f := by nlinarith
  have hmf2 : m * f ≤ 2 ^ 63 * (4728779608739021 / 4503599627370496) :=
    mul_le_mul hm2 hf2 (by linarith) (by positivity)
  obtain ⟨v, hv, hv1, hv2⟩ := F64.rnd_between (m * f) _ _ _ _ e6 e7 hmf1 hmf2
  obtain ⟨a, ha, _, _⟩ := F64.rnd_between
    (m * (4278419646001971 / 4503599627370496)) _ _ _ _ e6 e7 (by nlinarith)
    (by nlinarith)
  obtain ⟨b, hb, _, _⟩ := F64.rnd_between
    (m * (4728779608739021 / 4503599627370496)) _ _ _ _ e6 e7 (by nlinarith)
    (by nlinarith)
  have hprod : F64.ofInt n * (F64.lit 0.95 + F64.fin q * F64.lit 0.1) = F64.fin v := by
    unfold F64.ofInt
    rw [hm, F64.lit_0_95, F64.lit_0_1, F64.mul_fin, hp, F64.add_fin, hf, F64.mul_fin, hv]
  have hlo : F64.ofInt n * F64.lit 0.95 = F64.fin a := by
    unfold F64.ofInt
    rw [hm, F64.lit_0_95, F64.mul_fin, ha]
  have hhi : F64.ofInt n * F64.lit 1.05 = F64.fin b := by
    unfold F64.ofInt
    rw [hm, F64.lit_1_05, F64.mul_fin, hb]
  have hav : a ≤ v := F64.rnd_mono_fin ha hv (by nlinarith)
  have hvb : v ≤ b := F64.rnd_mono_fin hv hb (by nlinarith)
  refine ⟨v, a, b, hprod, hlo, hhi, hav, hvb, hv1, fun hv3 => ?_⟩
  unfold fuzz
  rw [if_pos hn]
  simp only
  rw [hprod]
  exact F64.toInt_Round conv v (by rw [abs_le]; constructor <;> linarith)

end Binary64

/-- C6, amended: for every input with `Grade ≠ 0` and every draw `u ∈ [0, 1)`, with `n`
the pre-fuzz interval: if `n ≤ 10` the output interval is `max(n, 1)`; if `n > 10` (and
`n` is an `int`) the float64 values `v`, `a`, `b` of `n * (0.95 + u * 0.1)`, `n * 0.95`
and `n * 1.05` are finite, and whenever `v ≤ 2 ^ 63 - 1` the output interval is the
integer nearest to `v` (a tie going away from zero) and lies between the integers nearest
to `a` and to `b`. For `n = 11` and the draw `409418147942766 / 2 ^ 53` the float64 value
`v` is 10.5 and the interval 11. -/
theorem fuzz_binary64 :
    (∀ (zone : Zone) (conv : F64 → ℤ) (now : ℤ) (q : ℚ) (input : Binary64.ReviewInput),
      input.Grade ≠ 0 → 0 ≤ q → q < 1 →
      ((Binary64.preFuzz conv input).1 ≤ 10 →
        (Binary64.CalculateNextReview zone conv now (F64.fin q) input).Interval =
          max (Binary64.preFuzz conv input).1 1) ∧
      (10 < (Binary64.preFuzz conv input).1 → (Binary64.preFuzz conv input).1 < 2 ^ 63 →
        ∃ (v a b : ℚ) (na nb : ℤ),
          F64.ofInt (Binary64.preFuzz conv input).1 *
            (F64.lit 0.95 + F64.fin q * F64.lit 0.1) = F64.fin v ∧
          F64.ofInt (Binary64.preFuzz conv input).1 * F64.lit 0.95 = F64.fin a ∧
          F64.ofInt (Binary64.preFuzz conv input).1 * F64.lit 1.05 = F64.fin b ∧
          IsNearestAway a na ∧ IsNearestAway b nb ∧
          (v ≤ 2 ^ 63 - 1 →
            IsNearestAway v
              (Binary64.CalculateNextReview zone conv now (F64.fin q) input).Interval ∧
            na ≤ (Binary64.CalculateNextReview zone conv now (F64.fin q) input).Interval ∧
            (Binary64.CalculateNextReview zone conv now (F64.fin q) input).Interval ≤
              nb))) ∧
    (∀ conv : F64 → ℤ,
      F64.ofInt 11 * (F64.lit 0.95 + F64.fin (409418147942766 / 2 ^ 53) * F64.lit 0.1) =
        F64.fin (21 / 2) ∧
      Binary64.fuzz conv (F64.fin (409418147942766 / 2 ^ 53)) 11 = 11) := by
  constructor
  · intro zone conv now q input hg hq0 hq1
    have hInt : (Binary64.CalculateNextReview zone conv now (F64.fin q) input).Interval =
        floorOne (Binary64.fuzz conv (F64.fin q) (Binary64.preFuzz conv input).1) := by
      unfold Binary64.CalculateNextReview; rw [if_neg hg]
    rw [hInt]
    generalize (Binary64.preFuzz conv input).1 = n
    constructor
    · intro hn
      unfold Binary64.fuzz
      rw [if_neg (by omega)]
      exact floorOne_eq_max n
    · intro hn hn2
      obtain ⟨v, a, b, hprod, hlo, hhi, hav, hvb, hv1, hfz⟩ :=
        Binary64.fuzz_in_range conv q n hq0 hq1 hn hn2
      refine ⟨v, a, b, goRound a, goRound b, hprod, hlo, hhi, goRound_nearest a,
        goRound_nearest b, fun hv3 => ?_⟩
      have h10 : (10 : ℤ) ≤ goRound v := by
        have := goRound_mono hv1
        have h' : goRound 10 = 10 := by exact_mod_cast goRound_intCast 10
        rwa [h'] at this
      have hfl : floorOne (Binary64.fuzz conv (F64.fin q) n) = goRound v := by
        rw [hfz hv3]; unfold floorOne; rw [if_neg (by omega)]
      rw [hfl]
      exact ⟨goRound_nearest v, goRound_mono hav, goRound_mono hvb⟩
  · intro conv
    have hval : F64.ofInt 11 *
        (F64.lit 0.95 + F64.fin (409418147942766 / 2 ^ 53) * F64.lit 0.1) =
        F64.fin (21 / 2) := by decide!
    refine ⟨hval, ?_⟩
    unfold Binary64.fuzz
    rw [if_pos (by decide)]
    simp only
    rw [hval, F64.toInt_Round conv (21 / 2) (by norm_num [abs_le])]
    decide!

theorem fuzz_binary64_witness :
    (Binary64.CalculateNextReview utcZone convAmd64 0 (F64.fin (1 / 4))
      ⟨1, F64.lit 2.5, 1, 3, F64.fin 0⟩).Interval =
      max (Binary64.preFuzz convAmd64 ⟨1, F64.lit 2.5, 1, 3, F64.fin 0⟩).1 1 :=
  (fuzz_binary64.1 utcZone convAmd64 0 (1 / 4) ⟨1, F64.lit 2.5, 1, 3, F64.fin 0⟩
    (by decide) (by norm_num) (by norm_num)).1 (by decide!)

/-! ## Helper lemmas on the replay loop -/

theorem elapsedDays_lt_half (t last : ℤ) :
    elapsedDays t last < 0.5 ↔ ((t - last : ℤ) : ℚ) / 86400 < 1 / 2 := by
  unfold elapsedDays
  constructor <;> intro h <;> norm_num at h ⊢ <;> linarith

theorem replayStep_logs (userID questionID : String) (clock : ℕ → ℤ) (rand : ℕ → ℚ)
    (i : ℕ) (st : ReplayState) (item : replayItem) :
    (replayStep userID questionID clock rand i st item).logs =
      st.logs ++ [logOf userID questionID item] := by
  unfold replayStep
  simp only
  split_ifs <;> rfl

theorem replayStep_skip (userID questionID : String) (clock : ℕ → ℤ) (rand : ℕ → ℚ)
    (i : ℕ) (st : ReplayState) (item : replayItem) (hi : 0 < i)
    (h : elapsedDays item.Timestamp st.lastReviewDate < 0.5) :
    replayStep userID questionID clock rand i st item =
      { st with logs := st.logs ++ [logOf userID questionID item] } := by
  unfold replayStep
  simp only
  have hi0 : i ≠ 0 := by omega
  rw [if_pos hi, if_neg hi0, if_pos ⟨hi, h⟩]

theorem replayStep_lastReviewDate (userID questionID : String) (clock : ℕ → ℤ)
    (rand : ℕ → ℚ) (i : ℕ) (st : ReplayState) (item : replayItem) (hi : 0 < i) :
    (replayStep userID questionID clock rand i st item).lastReviewDate =
      if ((item.Timestamp - st.lastReviewDate : ℤ) : ℚ) / 86400 < 1 / 2
      then st.lastReviewDate else item.Timestamp := by
  by_cases h : elapsedDays item.Timestamp st.lastReviewDate < 0.5
  · rw [replayStep_skip userID questionID clock rand i st item hi h,
      if_pos ((elapsedDays_lt_half _ _).mp h)]
  · rw [if_neg (fun hc => h ((elapsedDays_lt_half _ _).mpr hc))]
    unfold replayStep
    simp only
    rw [if_pos hi, if_neg (fun hc => h hc.2)]

theorem replayStep_zero_lastReviewDate (userID questionID : String) (clock : ℕ → ℤ)
    (rand : ℕ → ℚ) (st : ReplayState) (item : replayItem) :
    (replayStep userID questionID clock rand 0 st item).lastReviewDate =
      item.Timestamp := by
  unfold replayStep
  simp

theorem replayLoop_append (userID questionID : String) (clock : ℕ → ℤ) (rand : ℕ → ℚ)
    (items : List replayItem) (e : replayItem) :
    ∀ (i : ℕ) (st : ReplayState),
      replayLoop userID questionID clock rand i st (items ++ [e]) =
        replayStep userID questionID clock rand (i + items.length)
          (replayLoop userID questionID clock rand i st items) e := by
  induction items with
  | nil => intro i st; simp [replayLoop]
  | cons x xs ih =>
    intro i st
    have hstep : replayLoop userID questionID clock rand i st (x :: (xs ++ [e])) =
        replayLoop userID questionID clock rand (i + 1)
          (replayStep userID questionID clock rand i st x) (xs ++ [e]) := rfl
    have hstep2 : replayLoop userID questionID clock rand i st (x :: xs) =
        replayLoop userID questionID clock rand (i + 1)
          (replayStep userID questionID clock rand i st x) xs := rfl
    rw [List.cons_append, hstep, hstep2, ih (i + 1), List.length_cons]
    congr 1
    omega

theorem replayLoop_logs (userID questionID : String) (clock : ℕ → ℤ) (rand : ℕ → ℚ)
    (items : List replayItem) :
    ∀ (i : ℕ) (st : ReplayState),
      (replayLoop userID questionID clock rand i st items).logs =
        st.logs ++ items.map (logOf userID questionID) := by
  induction items with
  | nil => intro i st; simp [replayLoop]
  | cons x xs ih =>
    intro i st
    simp only [replayLoop, List.map_cons]
    rw [ih (i + 1), replayStep_logs]
    simp

theorem replayLoop_lastReviewDate (userID questionID : String) (clock : ℕ → ℤ)
    (rand : ℕ → ℚ) (items : List replayItem) :
    ∀ (i : ℕ) (st : ReplayState), 0 < i →
      (replayLoop userID questionID clock rand i st items).lastReviewDate =
        lastProcessedFrom st.lastReviewDate items := by
  induction items with
  | nil => intro i st _; simp [replayLoop, lastProcessedFrom]
  | cons x xs ih =>
    intro i st hi
    simp only [replayLoop, lastProcessedFrom]
    rw [ih (i + 1) _ (by omega), replayStep_lastReviewDate _ _ _ _ _ _ _ hi]
    split_ifs <;> rfl

theorem replayRun_lastReviewDate (userID questionID : String) (clock : ℕ → ℤ)
    (rand : ℕ → ℚ) (items : List replayItem) (last : ℤ)
    (h : lastProcessedTimestamp items = some last) :
    (replayRun userID questionID clock rand items).lastReviewDate = last := by
  cases items with
  | nil => simp [lastProcessedTimestamp] at h
  | cons x xs =>
    simp only [lastProcessedTimestamp, Option.some.injEq] at h
    unfold replayRun
    simp only [replayLoop]
    rw [replayLoop_lastReviewDate _ _ _ _ _ _ _ (by omega),
      replayStep_zero_lastReviewDate, h]

theorem logOf_eq_specLog (userID questionID : String) (item : replayItem) :
    logOf userID questionID item =
      specLog userID questionID item.Timestamp item.Status := by
  unfold logOf specLog masteryOf
  by_cases h : item.Status = "Accepted"
  · simp [h]
  · simp [h]

theorem CalculateNextReview_clock (now now' : ℤ) (u : ℚ) (input : ReviewInput) :
    (CalculateNextReview now u input).Interval =
        (CalculateNextReview now' u input).Interval ∧
    (CalculateNextReview now u input).EaseFactor =
        (CalculateNextReview now' u input).EaseFactor ∧
    (CalculateNextReview now u input).Repetitions =
        (CalculateNextReview now' u input).Repetitions := by
  unfold CalculateNextReview
  split_ifs <;> exact ⟨rfl, rfl, rfl⟩

theorem replayStep_clock (userID questionID : String) (clock clock' : ℕ → ℤ)
    (rand : ℕ → ℚ) (i : ℕ) (st : ReplayState) (item : replayItem) :
    replayStep userID questionID clock rand i st item =
      replayStep userID questionID clock' rand i st item := by
  unfold replayStep
  simp only
  have hI := fun u input => (CalculateNextReview_clock (clock st.engineCalls)
    (clock' st.engineCalls) u input).1
  have hE := fun u input => (CalculateNextReview_clock (clock st.engineCalls)
    (clock' st.engineCalls) u input).2.1
  have hR := fun u input => (CalculateNextReview_clock (clock st.engineCalls)
    (clock' st.engineCalls) u input).2.2
  split_ifs <;> first | rfl | rw [hI, hE, hR]

theorem replayLoop_clock (userID questionID : String) (clock clock' : ℕ → ℤ)
    (rand : ℕ → ℚ) (items : List replayItem) :
    ∀ (i : ℕ) (st : ReplayState),
      replayLoop userID questionID clock rand i st items =
        replayLoop userID questionID clock' rand i st items := by
  induction items with
  | nil => intro i st; rfl
  | cons x xs ih =>
    intro i st
    simp only [replayLoop]
    rw [replayStep_clock userID questionID clock clock', ih]

theorem replayRun_append_skip (userID questionID : String) (clock : ℕ → ℤ)
    (rand : ℕ → ℚ) (items : List replayItem) (e : replayItem) (last : ℤ)
    (hlast : lastProcessedTimestamp items = some last)
    (hlt : ((e.Timestamp - last : ℤ) : ℚ) / 86400 < 1 / 2) :
    replayRun userID questionID clock rand (items ++ [e]) =
      { replayRun userID questionID clock rand items with
        logs := (replayRun userID questionID clock rand items).logs ++
          [logOf userID questionID e] } := by
  have hne : 0 < 0 + items.length := by
    cases items with
    | nil => simp [lastProcessedTimestamp] at hlast
    | cons x xs => simp
  have hdate := replayRun_lastReviewDate userID questionID clock rand items last hlast
  unfold replayRun at hdate ⊢
  rw [replayLoop_append]
  apply replayStep_skip _ _ _ _ _ _ _ hne
  rw [hdate]
  exact (elapsedDays_lt_half _ _).mpr hlt

/-! ## Helper lemmas on sorting and grouping -/

theorem insertLeft_perm (x : HistoryItem) (ys : List HistoryItem) :
    (insertLeft x ys).Perm (x :: ys) := by
  induction ys with
  | nil => exact List.Perm.refl _
  | cons y ys ih =>
    unfold insertLeft
    split_ifs with h
    · exact (List.Perm.cons y ih).trans (List.Perm.swap x y ys)
    · exact List.Perm.refl _

theorem insertLeft_sorted (x : HistoryItem) (ys : List HistoryItem)
    (hs : ys.Pairwise (fun a b => b.Timestamp ≤ a.Timestamp)) :
    (insertLeft x ys).Pairwise (fun a b => b.Timestamp ≤ a.Timestamp) := by
  induction ys with
  | nil => simp [insertLeft]
  | cons y ys ih =>
    rw [List.pairwise_cons] at hs
    unfold insertLeft
    split_ifs with h
    · rw [List.pairwise_cons]
      refine ⟨fun z hz => ?_, ih hs.2⟩
      rcases List.mem_cons.mp ((insertLeft_perm x ys).mem_iff.mp hz) with hzx | hzy
      · rw [hzx]; omega
      · exact hs.1 z hzy
    · rw [List.pairwise_cons]
      refine ⟨fun z hz => ?_, List.pairwise_cons.mpr hs⟩
      rcases List.mem_cons.mp hz with hzy | hzys
      · rw [hzy]; omega
      · have := hs.1 z hzys
        omega

theorem foldl_insertLeft (l : List HistoryItem) :
    ∀ acc : List HistoryItem, acc.Pairwise (fun a b => b.Timestamp ≤ a.Timestamp) →
      (l.foldl (fun sortedRev x => insertLeft x sortedRev) acc).Perm (l ++ acc) ∧
      (l.foldl (fun sortedRev x => insertLeft x sortedRev) acc).Pairwise
        (fun a b => b.Timestamp ≤ a.Timestamp) := by
  induction l with
  | nil => intro acc hacc; exact ⟨List.Perm.refl _, hacc⟩
  | cons x xs ih =>
    intro acc hacc
    obtain ⟨hp, hs⟩ := ih (insertLeft x acc) (insertLeft_sorted x acc hacc)
    refine ⟨?_, hs⟩
    simp only [List.foldl_cons]
    refine hp.trans ?_
    refine ((insertLeft_perm x acc).append_left xs).trans ?_
    exact List.perm_middle

theorem sortSlice_sorts (l : List HistoryItem) :
    (sortSlice l).Perm l ∧
      (sortSlice l).Pairwise (fun a b => a.Timestamp ≤ b.Timestamp) := by
  obtain ⟨hp, hs⟩ := foldl_insertLeft l [] List.Pairwise.nil
  unfold sortSlice
  constructor
  · refine (List.reverse_perm _).trans ?_
    rw [List.append_nil] at hp
    exact hp
  · exact List.pairwise_reverse.mpr hs

theorem replayStep_congr (userID questionID : String) (clock : ℕ → ℤ) (rand : ℕ → ℚ)
    (i : ℕ) (st : ReplayState) (a b : replayItem) (h : replayKey a = replayKey b) :
    replayStep userID questionID clock rand i st a =
      replayStep userID questionID clock rand i st b := by
  have ht : a.Timestamp = b.Timestamp := congrArg Prod.fst h
  have hs : a.Status = b.Status := congrArg Prod.snd h
  unfold replayStep srsInputOf logOf masteryOf
  rw [ht, hs]

theorem replayLoop_congr (userID questionID : String) (clock : ℕ → ℤ) (rand : ℕ → ℚ)
    (items : List replayItem) :
    ∀ (items' : List replayItem) (i : ℕ) (st : ReplayState),
      items.map replayKey = items'.map replayKey →
      replayLoop userID questionID clock rand i st items =
        replayLoop userID questionID clock rand i st items' := by
  induction items with
  | nil =>
    intro items' i st h
    cases items' with
    | nil => rfl
    | cons y ys => simp at h
  | cons x xs ih =>
    intro items' i st h
    cases items' with
    | nil => simp at h
    | cons y ys =>
      simp only [List.map_cons, List.cons.injEq] at h
      simp only [replayLoop]
      rw [replayStep_congr userID questionID clock rand i st x y h.1]
      exact ih ys (i + 1) _ h.2

theorem historyBySlug_keys (history : List HistoryItem) (slug : String) :
    (historyBySlug history slug).map replayKey =
      (history.filter (fun item => item.Slug = slug)).map
        (fun item => (item.Timestamp, item.Status)) := by
  unfold historyBySlug
  rw [List.map_map]
  rfl

theorem sorted_keys_unique (p q : List (ℤ × String)) (hperm : p.Perm q)
    (hp : p.Pairwise (fun a b => a.1 ≤ b.1)) (hq : q.Pairwise (fun a b => a.1 ≤ b.1))
    (hties : ∀ a ∈ p, ∀ b ∈ p, a.1 = b.1 → a = b) : p = q := by
  haveI : IsAntisymm (ℤ × String) (fun a b => a.1 ≤ b.1 ∧ (b.1 ≤ a.1 → a = b)) :=
    ⟨fun a b hab hba => hab.2 hba.1⟩
  have hp' : p.Pairwise (fun a b => a.1 ≤ b.1 ∧ (b.1 ≤ a.1 → a = b)) :=
    hp.imp_of_mem (fun {a b} ha hb hab => ⟨hab, fun hba => hties a ha b hb (le_antisymm hab hba)⟩)
  have hq' : q.Pairwise (fun a b => a.1 ≤ b.1 ∧ (b.1 ≤ a.1 → a = b)) :=
    hq.imp_of_mem (fun {a b} ha hb hab =>
      ⟨hab, fun hba => hties a (hperm.mem_iff.mpr ha) b (hperm.mem_iff.mpr hb)
        (le_antisymm hab hba)⟩)
  exact List.eq_of_perm_of_sorted hperm hp' hq'

/-! ## Claims on the replay -/

/-- C8: same-day filter. For every non-empty event list and every further event whose
timestamp is less than 0.5 days after the timestamp `last` of the last processed
event, appending that event makes no further engine call, leaves the final state
(interval, ease factor, streak, status, `LastReviewedAt`, `NextReviewAt`) unchanged
and adds exactly the log entry of that event. In particular two Accepted events three
hours apart give 2 logs, one engine call and a final state with `Streak = 1` and
`IntervalDays = 1`. -/
theorem same_day_filter :
    (∀ (userID questionID : String) (clock : ℕ → ℤ) (rand : ℕ → ℚ)
        (items : List replayItem) (e : replayItem) (last : ℤ),
      lastProcessedTimestamp items = some last →
      ((e.Timestamp - last : ℤ) : ℚ) / 86400 < 1 / 2 →
      (replayRun userID questionID clock rand (items ++ [e])).engineCalls =
        (replayRun userID questionID clock rand items).engineCalls ∧
      (replayHistory userID questionID clock rand (items ++ [e])).1 =
        (replayHistory userID questionID clock rand items).1 ∧
      (replayHistory userID questionID clock rand (items ++ [e])).2 =
        (replayHistory userID questionID clock rand items).2 ++
          [specLog userID questionID e.Timestamp e.Status]) ∧
    (∀ (userID questionID : String) (clock : ℕ → ℤ) (rand : ℕ → ℚ) (t : ℤ)
        (title1 title2 : String),
      (replayHistory userID questionID clock rand
        [⟨t, "Accepted", title1⟩, ⟨t + 3 * 3600, "Accepted", title2⟩]).2.length = 2 ∧
      (replayRun userID questionID clock rand
        [⟨t, "Accepted", title1⟩, ⟨t + 3 * 3600, "Accepted", title2⟩]).engineCalls = 1 ∧
      (replayHistory userID questionID clock rand
        [⟨t, "Accepted", title1⟩, ⟨t + 3 * 3600, "Accepted", title2⟩]).1.Streak = 1 ∧
      (replayHistory userID questionID clock rand
        [⟨t, "Accepted", title1⟩, ⟨t + 3 * 3600, "Accepted", title2⟩]).1.IntervalDays
          = 1) := by
  constructor
  · intro userID questionID clock rand items e last hlast hlt
    have h := replayRun_append_skip userID questionID clock rand items e last hlast hlt
    unfold replayHistory
    simp only
    rw [h, logOf_eq_specLog]
    exact ⟨rfl, rfl, rfl⟩
  · intro userID questionID clock rand t title1 title2
    have hskip : replayRun userID questionID clock rand
        ([⟨t, "Accepted", title1⟩] ++ [⟨t + 3 * 3600, "Accepted", title2⟩]) = _ :=
      replayRun_append_skip userID questionID clock rand [⟨t, "Accepted", title1⟩]
        ⟨t + 3 * 3600, "Accepted", title2⟩ t rfl (by simp; norm_num)
    rw [List.singleton_append] at hskip
    unfold replayHistory
    simp only
    rw [hskip]
    simp [replayRun, replayLoop, replayStep, initReplay, srsInputOf, masteryOf,
      CalculateNextReview, preFuzz, fuzz, floorOne]

theorem same_day_filter_witness :
    (replayHistory "u" "q" (fun _ => 0) (fun _ => 0)
        ([⟨0, "Accepted", "a"⟩, ⟨86400, "Wrong Answer", "a"⟩] ++
          [⟨86400 + 60, "Accepted", "a"⟩])).1 =
      (replayHistory "u" "q" (fun _ => 0) (fun _ => 0)
        [⟨0, "Accepted", "a"⟩, ⟨86400, "Wrong Answer", "a"⟩]).1 :=
  (same_day_filter.1 "u" "q" (fun _ => 0) (fun _ => 0)
    [⟨0, "Accepted", "a"⟩, ⟨86400, "Wrong Answer", "a"⟩] ⟨86400 + 60, "Accepted", "a"⟩
    86400 (by simp [lastProcessedTimestamp, lastProcessedFrom]; norm_num)
    (by norm_num)).2.1

/-- C9: for every event list `replayHistory` returns exactly one log per event, in
input order; the i-th log carries the given user and question, the timestamp of the
i-th event, and `MasteryLevel = 2` with status SOLVED when the event is Accepted,
`MasteryLevel = 0` with status FAILED otherwise, skipped events included. -/
theorem one_log_per_event (userID questionID : String) (clock : ℕ → ℤ) (rand : ℕ → ℚ)
    (items : List replayItem) :
    (replayHistory userID questionID clock rand items).2 =
      items.map (fun item => specLog userID questionID item.Timestamp item.Status) ∧
    (replayHistory userID questionID clock rand items).2.length = items.length ∧
    (∀ i : ℕ, (replayHistory userID questionID clock rand items).2[i]? =
      (items[i]?).map
        (fun item => specLog userID questionID item.Timestamp item.Status)) := by
  have h : (replayHistory userID questionID clock rand items).2 =
      items.map (fun item => specLog userID questionID item.Timestamp item.Status) := by
    unfold replayHistory replayRun
    simp only
    rw [replayLoop_logs]
    simp only [initReplay, List.nil_append]
    apply List.map_congr_left
    intro item _
    exact logOf_eq_specLog userID questionID item
  refine ⟨h, ?_, ?_⟩
  · rw [h, List.length_map]
  · intro i
    rw [h, List.getElem?_map]

theorem dateIn_offset (zone : Zone) (wall : ℤ) :
    ∃ s, (s = wall ∨ s = wall - (zone.lookup wall).1) ∧
      dateIn zone wall = wall - (zone.lookup s).1 := by
  unfold dateIn
  simp only
  by_cases h0 : (zone.lookup wall).1 ≠ 0
  · rw [if_pos h0]
    by_cases hout : wall - (zone.lookup wall).1 < (zone.lookup wall).2.1 ∨
        wall - (zone.lookup wall).1 ≥ (zone.lookup wall).2.2
    · rw [if_pos hout]
      exact ⟨wall - (zone.lookup wall).1, Or.inr rfl, rfl⟩
    · rw [if_neg hout]
      exact ⟨wall, Or.inl rfl, rfl⟩
  · rw [if_neg h0]
    refine ⟨wall, Or.inl rfl, ?_⟩
    rw [not_not.mp h0]
    ring

theorem replayHistoryIn_utc (userID questionID : String) (clock : ℕ → ℤ) (rand : ℕ → ℚ)
    (items : List replayItem) :
    replayHistoryIn utcZone userID questionID clock rand items =
      replayHistory userID questionID clock rand items := by
  unfold replayHistoryIn replayHistory AddDate dateIn addDate utcZone
  simp

theorem AddDate_across_transition :
    AddDate exampleZone 950000 1 = 950000 + 86400 - 3600 ∧
    AddDate exampleZone 100000 1 = 100000 + 86400 ∧
    AddDate exampleZone 2000000 3 = 2000000 + 3 * 86400 := by
  refine ⟨?_, ?_, ?_⟩ <;> simp [AddDate, dateIn, exampleZone]

/-- C10: for every non-empty event list and every local zone, the final state has
`LastReviewedAt` equal to the timestamp of the last event processed by the engine (not
of a later skipped duplicate) and `NextReviewAt` equal to that time moved by the final
`IntervalDays` calendar days in the zone: `86400 * IntervalDays` seconds later, corrected
by the change of the zone offset between the two times, and exactly that many seconds
later in a zone of constant offset such as UTC. The result does not depend on the wall
clock read by the engine. -/
theorem final_anchor (zone : Zone) (userID questionID : String) (clock : ℕ → ℤ)
    (rand : ℕ → ℚ) (items : List replayItem) (hne : items ≠ []) :
    lastProcessedTimestamp items =
      some (replayHistoryIn zone userID questionID clock rand items).1.LastReviewedAt ∧
    (replayHistoryIn zone userID questionID clock rand items).1.NextReviewAt =
      AddDate zone (replayHistoryIn zone userID questionID clock rand items).1.LastReviewedAt
        (replayHistoryIn zone userID questionID clock rand items).1.IntervalDays ∧
    (∃ s,
      (s = (replayHistoryIn zone userID questionID clock rand items).1.LastReviewedAt +
            (zone.lookup
              (replayHistoryIn zone userID questionID clock rand items).1.LastReviewedAt).1 +
            86400 * (replayHistoryIn zone userID questionID clock rand items).1.IntervalDays ∨
        s = (replayHistoryIn zone userID questionID clock rand items).1.LastReviewedAt +
            (zone.lookup
              (replayHistoryIn zone userID questionID clock rand items).1.LastReviewedAt).1 +
            86400 * (replayHistoryIn zone userID questionID clock rand items).1.IntervalDays -
            (zone.lookup
              ((replayHistoryIn zone userID questionID clock rand items).1.LastReviewedAt +
                (zone.lookup (replayHistoryIn zone userID questionID clock rand
                  items).1.LastReviewedAt).1 +
                86400 *
                  (replayHistoryIn zone userID questionID clock rand items).1.IntervalDays)).1) ∧
      (replayHistoryIn zone userID questionID clock rand items).1.NextReviewAt =
        (replayHistoryIn zone userID questionID clock rand items).1.LastReviewedAt +
          86400 * (replayHistoryIn zone userID questionID clock rand items).1.IntervalDays +
          (zone.lookup
            (replayHistoryIn zone userID questionID clock rand items).1.LastReviewedAt).1 -
          (zone.lookup s).1) ∧
    (∀ c : ℤ, (∀ t, (zone.lookup t).1 = c) →
      (replayHistoryIn zone userID questionID clock rand items).1.NextReviewAt =
        (replayHistoryIn zone userID questionID clock rand items).1.LastReviewedAt +
          86400 * (replayHistoryIn zone userID questionID clock rand items).1.IntervalDays) ∧
    (∀ clock' : ℕ → ℤ,
      replayHistoryIn zone userID questionID clock' rand items =
        replayHistoryIn zone userID questionID clock rand items) := by
  have hoff := dateIn_offset zone
    ((replayHistoryIn zone userID questionID clock rand items).1.LastReviewedAt +
      (zone.lookup
        (replayHistoryIn zone userID questionID clock rand items).1.LastReviewedAt).1 +
      86400 * (replayHistoryIn zone userID questionID clock rand items).1.IntervalDays)
  have hnext : (replayHistoryIn zone userID questionID clock rand items).1.NextReviewAt =
      dateIn zone
        ((replayHistoryIn zone userID questionID clock rand items).1.LastReviewedAt +
          (zone.lookup
            (replayHistoryIn zone userID questionID clock rand items).1.LastReviewedAt).1 +
          86400 * (replayHistoryIn zone userID questionID clock rand items).1.IntervalDays) :=
    rfl
  refine ⟨?_, rfl, ?_, ?_, ?_⟩
  · cases items with
    | nil => exact absurd rfl hne
    | cons x xs =>
      have h := replayRun_lastReviewDate userID questionID clock rand (x :: xs)
        (lastProcessedFrom x.Timestamp xs) rfl
      show some (lastProcessedFrom x.Timestamp xs) = some _
      unfold replayHistoryIn
      simp only
      rw [h]
  · obtain ⟨s, hs, hd⟩ := hoff
    refine ⟨s, hs, ?_⟩
    rw [hnext, hd]
    ring
  · intro c hc
    obtain ⟨s, _, hd⟩ := hoff
    rw [hnext, hd, hc, hc]
    ring
  · intro clock'
    unfold replayHistoryIn replayRun
    rw [replayLoop_clock userID questionID clock' clock]

theorem final_anchor_witness :
    lastProcessedTimestamp
        [⟨0, "Accepted", "a"⟩, ⟨86400, "Accepted", "a"⟩, ⟨86400 + 60, "Wrong Answer", "a"⟩] =
      some (replayHistoryIn exampleZone "u" "q" (fun _ => 0) (fun _ => 0)
        [⟨0, "Accepted", "a"⟩, ⟨86400, "Accepted", "a"⟩,
          ⟨86400 + 60, "Wrong Answer", "a"⟩]).1.LastReviewedAt :=
  (final_anchor exampleZone "u" "q" (fun _ => 0) (fun _ => 0)
    [⟨0, "Accepted", "a"⟩, ⟨86400, "Accepted", "a"⟩, ⟨86400 + 60, "Wrong Answer", "a"⟩]
    (by simp)).1

/-- C7, as stated, fails: two events of one slug with the same timestamp, one
Accepted and one not, are kept in their input order by the sort, and the replay
processes only the first of them, so the two input orders end with streaks 1 and 0. -/
theorem replay_order_ties_counterexample :
    List.Perm
      [(⟨"t", "s", "Wrong Answer", 100⟩ : HistoryItem), ⟨"t", "s", "Accepted", 100⟩]
      [⟨"t", "s", "Accepted", 100⟩, ⟨"t", "s", "Wrong Answer", 100⟩] ∧
    (sortSlice [⟨"t", "s", "Accepted", 100⟩, ⟨"t", "s", "Wrong Answer", 100⟩]).Pairwise
      (fun a b => a.Timestamp ≤ b.Timestamp) ∧
    (replayHistory "u" "q" (fun _ => 0) (fun _ => 0)
      (historyBySlug
        (sortSlice [⟨"t", "s", "Accepted", 100⟩, ⟨"t", "s", "Wrong Answer", 100⟩])
        "s")).1.Streak = 1 ∧
    (replayHistory "u" "q" (fun _ => 0) (fun _ => 0)
      (historyBySlug
        (sortSlice [⟨"t", "s", "Wrong Answer", 100⟩, ⟨"t", "s", "Accepted", 100⟩])
        "s")).1.Streak = 0 := by
  refine ⟨List.Perm.swap _ _ _, (sortSlice_sorts _).2, ?_, ?_⟩
  · simp [replayHistory, replayRun, replayLoop, replayStep, historyBySlug, sortSlice,
      insertLeft, initReplay, srsInputOf, masteryOf, elapsedDays, CalculateNextReview]
    norm_num
  · simp [replayHistory, replayRun, replayLoop, replayStep, historyBySlug, sortSlice,
      insertLeft, initReplay, srsInputOf, masteryOf, elapsedDays, CalculateNextReview]
    norm_num

/-- C7, amended: for every sort that returns a timestamp-ordered permutation of its
input, every history in which events of the slug with equal timestamps have equal
status (in particular every history with pairwise distinct timestamps) and every
permutation of it, sorting and replaying the slug gives the same final state and the
same logs, for the same clock and fuzz draws. -/
theorem replay_order_insensitive (userID questionID : String) (clock : ℕ → ℤ)
    (rand : ℕ → ℚ) (srt : List HistoryItem → List HistoryItem)
    (hsrt : ∀ l, (srt l).Perm l ∧
      (srt l).Pairwise (fun a b => a.Timestamp ≤ b.Timestamp))
    (slug : String) (l l' : List HistoryItem) (hperm : l'.Perm l)
    (hties : ∀ a ∈ l, ∀ b ∈ l, a.Slug = slug → b.Slug = slug →
      a.Timestamp = b.Timestamp → a.Status = b.Status) :
    replayHistory userID questionID clock rand (historyBySlug (srt l') slug) =
      replayHistory userID questionID clock rand (historyBySlug (srt l) slug) := by
  have hkeys : (historyBySlug (srt l') slug).map replayKey =
      (historyBySlug (srt l) slug).map replayKey := by
    rw [historyBySlug_keys, historyBySlug_keys]
    have hp : (srt l').Perm (srt l) :=
      ((hsrt l').1.trans hperm).trans (hsrt l).1.symm
    apply sorted_keys_unique
    · exact (hp.filter _).map _
    · exact ((hsrt l').2.filter _).map _ (fun a b hab => hab)
    · exact ((hsrt l).2.filter _).map _ (fun a b hab => hab)
    · intro a ha b hb hab
      obtain ⟨x, hx, rfl⟩ := List.mem_map.mp ha
      obtain ⟨y, hy, rfl⟩ := List.mem_map.mp hb
      rw [List.mem_filter] at hx hy
      have hxl : x ∈ l := ((hsrt l').1.trans hperm).mem_iff.mp hx.1
      have hyl : y ∈ l := ((hsrt l').1.trans hperm).mem_iff.mp hy.1
      have hst := hties x hxl y hyl (by simpa using hx.2) (by simpa using hy.2) hab
      exact Prod.ext hab hst
  unfold replayHistory replayRun
  rw [replayLoop_congr userID questionID clock rand _ _ 0 _ hkeys]

theorem replay_order_insensitive_witness :
    replayHistory "u" "q" (fun _ => 0) (fun _ => 0)
        (historyBySlug
          (sortSlice [⟨"t", "s", "Wrong Answer", 200000⟩, ⟨"t", "s", "Accepted", 100⟩])
          "s") =
      replayHistory "u" "q" (fun _ => 0) (fun _ => 0)
        (historyBySlug
          (sortSlice [⟨"t", "s", "Accepted", 100⟩, ⟨"t", "s", "Wrong Answer", 200000⟩])
          "s") :=
  replay_order_insensitive "u" "q" (fun _ => 0) (fun _ => 0) sortSlice sortSlice_sorts "s"
    [⟨"t", "s", "Accepted", 100⟩, ⟨"t", "s", "Wrong Answer", 200000⟩]
    [⟨"t", "s", "Wrong Answer", 200000⟩, ⟨"t", "s", "Accepted", 100⟩]
    (List.Perm.swap _ _ _) (by simp)

/-! ## Helper lemmas on ImportHistory -/

theorem importLoop_skip {σ : Type} (repo : Repository σ) (clock : ℕ → ℤ) (rand : ℕ → ℚ)
    (userID : String) (groups : String → List replayItem) (slug : String)
    (rest : List String) (st : ImportState σ) (e : String) (db1 : σ)
    (hfail : ensureQuestionExists repo slug (firstTitle (groups slug)) st.db =
      (Except.error e, db1)) :
    importLoop repo clock rand userID groups (slug :: rest) st =
      importLoop repo clock rand userID groups rest { st with db := db1 } := by
  rw [importLoop]
  simp only [hfail]

theorem importLoop_persist {σ : Type} (repo : Repository σ) (clock : ℕ → ℤ)
    (rand : ℕ → ℚ) (userID : String) (groups : String → List replayItem)
    (slug : String) (rest : List String) (st : ImportState σ) (questionID : String)
    (db1 : σ)
    (hok : ensureQuestionExists repo slug (firstTitle (groups slug)) st.db =
      (Except.ok questionID, db1))
    (hup : ∀ stats db, (repo.UpsertUserStats stats db).1 = none)
    (hlogs : ∀ logs db, (repo.BatchCreateLogs logs db).1 = none) :
    ∃ st1 : ImportState σ,
      importLoop repo clock rand userID groups (slug :: rest) st =
        importLoop repo clock rand userID groups rest st1 ∧
      st1.completed = st.completed ++
        [(slug,
          replayHistory userID questionID (fun k => clock (st.engineCalls + k))
            (fun k => rand (st.randCalls + k)) (groups slug))] := by
  rw [importLoop]
  simp only [hok]
  rcases hu : repo.UpsertUserStats
    (replayHistory userID questionID (fun k => clock (st.engineCalls + k))
      (fun k => rand (st.randCalls + k)) (groups slug)).1 db1 with ⟨r, db2⟩
  have hr : r = none := by
    have := hup (replayHistory userID questionID (fun k => clock (st.engineCalls + k))
      (fun k => rand (st.randCalls + k)) (groups slug)).1 db1
    rw [hu] at this
    exact this
  subst hr
  simp only
  split_ifs with hlen
  · rcases hb : repo.BatchCreateLogs
      (replayHistory userID questionID (fun k => clock (st.engineCalls + k))
        (fun k => rand (st.randCalls + k)) (groups slug)).2 db2 with ⟨r2, db3⟩
    have hr2 : r2 = none := by
      have := hlogs (replayHistory userID questionID (fun k => clock (st.engineCalls + k))
        (fun k => rand (st.randCalls + k)) (groups slug)).2 db2
      rw [hb] at this
      exact this
    subst hr2
    exact ⟨_, rfl, rfl⟩
  · exact ⟨_, rfl, rfl⟩

theorem importLoop_one_failing {σ : Type} (repo : Repository σ) (clock : ℕ → ℤ)
    (rand : ℕ → ℚ) (userID : String) (groups : String → List replayItem)
    (bad : String)
    (hbad : ∀ title db, ∃ e db1,
      ensureQuestionExists repo bad title db = (Except.error e, db1))
    (hup : ∀ stats db, (repo.UpsertUserStats stats db).1 = none)
    (hlogs : ∀ logs db, (repo.BatchCreateLogs logs db).1 = none)
    (order : List String) :
    ∀ st : ImportState σ,
      (∀ slug ∈ order, slug ≠ bad → ∀ title db, ∃ questionID db1,
        ensureQuestionExists repo slug title db = (Except.ok questionID, db1)) →
      (importLoop repo clock rand userID groups order st).1 = none ∧
      (importLoop repo clock rand userID groups order st).2.completed.map (fun c => c.1) =
        st.completed.map (fun c => c.1) ++ order.filter (fun slug => slug ≠ bad) ∧
      (∀ c ∈ (importLoop repo clock rand userID groups order st).2.completed,
        c ∈ st.completed ∨ ∃ questionID clock1 rand1,
          c.2 = replayHistory userID questionID clock1 rand1 (groups c.1)) := by
  induction order with
  | nil =>
    intro st _
    simp only [importLoop, List.filter_nil, List.append_nil, true_and]
    exact fun c hc => Or.inl hc
  | cons slug rest ih =>
    intro st hothers
    have hrest : ∀ s ∈ rest, s ≠ bad → ∀ title db, ∃ questionID db1,
        ensureQuestionExists repo s title db = (Except.ok questionID, db1) :=
      fun s hs => hothers s (List.mem_cons_of_mem _ hs)
    by_cases hs : slug = bad
    · obtain ⟨e, db1, hfail⟩ := hbad (firstTitle (groups slug)) st.db
      rw [← hs] at hfail
      rw [importLoop_skip repo clock rand userID groups slug rest st e db1 hfail]
      obtain ⟨h1, h2, h3⟩ := ih { st with db := db1 } hrest
      refine ⟨h1, ?_, h3⟩
      rw [h2, List.filter_cons_of_neg (by simpa using hs)]
    · obtain ⟨questionID, db1, hok⟩ :=
        hothers slug (List.mem_cons_self _ _) hs (firstTitle (groups slug)) st.db
      obtain ⟨st1, hstep, hcompleted⟩ := importLoop_persist repo clock rand userID groups
        slug rest st questionID db1 hok hup hlogs
      rw [hstep]
      obtain ⟨h1, h2, h3⟩ := ih st1 hrest
      refine ⟨h1, ?_, ?_⟩
      · rw [h2, hcompleted, List.filter_cons_of_pos (by simpa using hs)]
        simp
      · intro c hc
        rcases h3 c hc with hin | hex
        · rw [hcompleted, List.mem_append, List.mem_singleton] at hin
          rcases hin with hold | hnew
          · exact Or.inl hold
          · exact Or.inr ⟨questionID, _, _, by rw [hnew]⟩
        · exact Or.inr hex

theorem replayStep_ids (userID questionID : String) (clock : ℕ → ℤ) (rand : ℕ → ℚ)
    (i : ℕ) (st : ReplayState) (item : replayItem) :
    (replayStep userID questionID clock rand i st item).currentStats.QuestionID =
        st.currentStats.QuestionID ∧
    (replayStep userID questionID clock rand i st item).currentStats.UserID =
        st.currentStats.UserID := by
  unfold replayStep
  simp only
  split_ifs <;> exact ⟨rfl, rfl⟩

theorem replayLoop_ids (userID questionID : String) (clock : ℕ → ℤ) (rand : ℕ → ℚ)
    (items : List replayItem) :
    ∀ (i : ℕ) (st : ReplayState),
      (replayLoop userID questionID clock rand i st items).currentStats.QuestionID =
          st.currentStats.QuestionID ∧
      (replayLoop userID questionID clock rand i st items).currentStats.UserID =
          st.currentStats.UserID := by
  induction items with
  | nil => intro i st; exact ⟨rfl, rfl⟩
  | cons x xs ih =>
    intro i st
    simp only [replayLoop]
    obtain ⟨h1, h2⟩ := ih (i + 1) (replayStep userID questionID clock rand i st x)
    obtain ⟨h3, h4⟩ := replayStep_ids userID questionID clock rand i st x
    exact ⟨h1.trans h3, h2.trans h4⟩

theorem replayHistory_QuestionID (userID questionID : String) (clock : ℕ → ℤ)
    (rand : ℕ → ℚ) (items : List replayItem) :
    (replayHistory userID questionID clock rand items).1.QuestionID = questionID := by
  unfold replayHistory replayRun
  exact (replayLoop_ids userID questionID clock rand items 0
    (initReplay userID questionID)).1

theorem replayHistory_logs (userID questionID : String) (clock : ℕ → ℤ)
    (rand : ℕ → ℚ) (items : List replayItem) :
    (replayHistory userID questionID clock rand items).2 =
      items.map (logOf userID questionID) := by
  unfold replayHistory replayRun
  simp only
  rw [replayLoop_logs]
  rfl

theorem importLoop_upsert_fails {σ : Type} (repo : Repository σ) (clock : ℕ → ℤ)
    (rand : ℕ → ℚ) (userID : String) (groups : String → List replayItem)
    (slug : String) (rest : List String) (st : ImportState σ) (questionID err : String)
    (db1 db2 : σ)
    (hok : ensureQuestionExists repo slug (firstTitle (groups slug)) st.db =
      (Except.ok questionID, db1))
    (hup : repo.UpsertUserStats
      (replayHistory userID questionID (fun k => clock (st.engineCalls + k))
        (fun k => rand (st.randCalls + k)) (groups slug)).1 db1 = (some err, db2)) :
    importLoop repo clock rand userID groups (slug :: rest) st =
      (some err,
        { st with
          db := db2
          randCalls := st.randCalls +
            (replayRun userID questionID (fun k => clock (st.engineCalls + k))
              (fun k => rand (st.randCalls + k)) (groups slug)).randCalls
          engineCalls := st.engineCalls +
            (replayRun userID questionID (fun k => clock (st.engineCalls + k))
              (fun k => rand (st.randCalls + k)) (groups slug)).engineCalls }) := by
  rw [importLoop]
  simp only [hok, hup]

theorem importLoop_logs_fail {σ : Type} (repo : Repository σ) (clock : ℕ → ℤ)
    (rand : ℕ → ℚ) (userID : String) (groups : String → List replayItem)
    (slug : String) (rest : List String) (st : ImportState σ) (questionID err : String)
    (db1 db2 db3 : σ)
    (hok : ensureQuestionExists repo slug (firstTitle (groups slug)) st.db =
      (Except.ok questionID, db1))
    (hup : repo.UpsertUserStats
      (replayHistory userID questionID (fun k => clock (st.engineCalls + k))
        (fun k => rand (st.randCalls + k)) (groups slug)).1 db1 = (none, db2))
    (hlen : (replayHistory userID questionID (fun k => clock (st.engineCalls + k))
        (fun k => rand (st.randCalls + k)) (groups slug)).2.length > 0)
    (hlogs : repo.BatchCreateLogs
      (replayHistory userID questionID (fun k => clock (st.engineCalls + k))
        (fun k => rand (st.randCalls + k)) (groups slug)).2 db2 = (some err, db3)) :
    importLoop repo clock rand userID groups (slug :: rest) st =
      (some err,
        { st with
          db := db3
          randCalls := st.randCalls +
            (replayRun userID questionID (fun k => clock (st.engineCalls + k))
              (fun k => rand (st.randCalls + k)) (groups slug)).randCalls
          engineCalls := st.engineCalls +
            (replayRun userID questionID (fun k => clock (st.engineCalls + k))
              (fun k => rand (st.randCalls + k)) (groups slug)).engineCalls }) := by
  rw [importLoop]
  simp only [hok, hup, if_pos hlen, hlogs]

theorem importLoop_written {σ : Type} (repo : Repository σ) (clock : ℕ → ℤ)
    (rand : ℕ → ℚ) (userID : String) (groups : String → List replayItem)
    (slug : String) (rest : List String) (st : ImportState σ) (questionID : String)
    (db1 db2 db3 : σ)
    (hok : ensureQuestionExists repo slug (firstTitle (groups slug)) st.db =
      (Except.ok questionID, db1))
    (hup : repo.UpsertUserStats
      (replayHistory userID questionID (fun k => clock (st.engineCalls + k))
        (fun k => rand (st.randCalls + k)) (groups slug)).1 db1 = (none, db2))
    (hlen : (replayHistory userID questionID (fun k => clock (st.engineCalls + k))
        (fun k => rand (st.randCalls + k)) (groups slug)).2.length > 0)
    (hlogs : repo.BatchCreateLogs
      (replayHistory userID questionID (fun k => clock (st.engineCalls + k))
        (fun k => rand (st.randCalls + k)) (groups slug)).2 db2 = (none, db3)) :
    importLoop repo clock rand userID groups (slug :: rest) st =
      importLoop repo clock rand userID groups rest
        { db := db3
          randCalls := st.randCalls +
            (replayRun userID questionID (fun k => clock (st.engineCalls + k))
              (fun k => rand (st.randCalls + k)) (groups slug)).randCalls
          engineCalls := st.engineCalls +
            (replayRun userID questionID (fun k => clock (st.engineCalls + k))
              (fun k => rand (st.randCalls + k)) (groups slug)).engineCalls
          completed := st.completed ++
            [(slug, replayHistory userID questionID (fun k => clock (st.engineCalls + k))
              (fun k => rand (st.randCalls + k)) (groups slug))] } := by
  rw [importLoop]
  simp only [hok, hup, if_pos hlen, hlogs]

theorem importLoop_cons_processGroup {σ : Type} (repo : Repository σ) (clock : ℕ → ℤ)
    (rand : ℕ → ℚ) (userID : String) (groups : String → List replayItem)
    (hup : ∀ stats db, (repo.UpsertUserStats stats db).1 = none)
    (hlogs : ∀ logs db, (repo.BatchCreateLogs logs db).1 = none)
    (slug : String) (rest : List String) (st : ImportState σ) :
    importLoop repo clock rand userID groups (slug :: rest) st =
      importLoop repo clock rand userID groups rest
        (processGroup repo clock rand userID groups st slug) := by
  rw [importLoop]
  unfold processGroup
  rcases he : ensureQuestionExists repo slug (firstTitle (groups slug)) st.db with
    ⟨r, db1⟩
  cases r with
  | error e => rfl
  | ok questionID =>
    simp only
    rcases hu : repo.UpsertUserStats
      (replayHistory userID questionID (fun k => clock (st.engineCalls + k))
        (fun k => rand (st.randCalls + k)) (groups slug)).1 db1 with ⟨r1, db2⟩
    have hr1 : r1 = none := by
      have := hup (replayHistory userID questionID (fun k => clock (st.engineCalls + k))
        (fun k => rand (st.randCalls + k)) (groups slug)).1 db1
      rw [hu] at this
      exact this
    subst hr1
    simp only
    split_ifs with hlen
    · rcases hb : repo.BatchCreateLogs
        (replayHistory userID questionID (fun k => clock (st.engineCalls + k))
          (fun k => rand (st.randCalls + k)) (groups slug)).2 db2 with ⟨r2, db3⟩
      have hr2 : r2 = none := by
        have := hlogs (replayHistory userID questionID
          (fun k => clock (st.engineCalls + k))
          (fun k => rand (st.randCalls + k)) (groups slug)).2 db2
        rw [hb] at this
        exact this
      subst hr2
      rfl
    · rfl

theorem importLoop_eq_foldl {σ : Type} (repo : Repository σ) (clock : ℕ → ℤ)
    (rand : ℕ → ℚ) (userID : String) (groups : String → List replayItem)
    (hup : ∀ stats db, (repo.UpsertUserStats stats db).1 = none)
    (hlogs : ∀ logs db, (repo.BatchCreateLogs logs db).1 = none)
    (order : List String) :
    ∀ st : ImportState σ,
      importLoop repo clock rand userID groups order st =
        (none, order.foldl (processGroup repo clock rand userID groups) st) := by
  induction order with
  | nil => intro st; rfl
  | cons slug rest ih =>
    intro st
    rw [importLoop_cons_processGroup repo clock rand userID groups hup hlogs, ih]
    rfl

/-! ## Claims on ImportHistory -/

/-- C11, as stated, fails: with a repository in which lookup-or-create fails for the
slug "bad", `ImportHistory` returns `nil`, so the failure is not reported; the other
group is replayed and its state and log are written. -/
theorem import_failure_not_reported :
    (∃ e db1, ensureQuestionExists (exampleRepo "bad" "none") "bad" "Bad" ([], []) =
      (Except.error e, db1)) ∧
    (ImportHistory (exampleRepo "bad" "none") (fun _ => 0) (fun _ => 0) sortSlice
      ["bad", "ok"] "u"
      [⟨"Bad", "bad", "Accepted", 100⟩, ⟨"Ok", "ok", "Accepted", 200⟩] ([], [])).1 = none ∧
    (ImportHistory (exampleRepo "bad" "none") (fun _ => 0) (fun _ => 0) sortSlice
      ["bad", "ok"] "u"
      [⟨"Bad", "bad", "Accepted", 100⟩, ⟨"Ok", "ok", "Accepted", 200⟩]
      ([], [])).2.db.1.map (fun stats => stats.QuestionID) = ["id-ok"] ∧
    (ImportHistory (exampleRepo "bad" "none") (fun _ => 0) (fun _ => 0) sortSlice
      ["bad", "ok"] "u"
      [⟨"Bad", "bad", "Accepted", 100⟩, ⟨"Ok", "ok", "Accepted", 200⟩]
      ([], [])).2.db.2.map (fun log => (log.QuestionID, log.Date)) = [("id-ok", 200)] := by
  refine ⟨⟨"insert failed", ([], []), ?_⟩, ?_, ?_, ?_⟩
  · simp [ensureQuestionExists, exampleRepo]
  · simp [ImportHistory, importLoop, ensureQuestionExists, exampleRepo, historyBySlug,
      sortSlice, insertLeft, firstTitle, replayHistory_QuestionID, replayHistory_logs]
  · simp [ImportHistory, importLoop, ensureQuestionExists, exampleRepo, historyBySlug,
      sortSlice, insertLeft, firstTitle, replayHistory_QuestionID, replayHistory_logs]
  · simp [ImportHistory, importLoop, ensureQuestionExists, exampleRepo, historyBySlug,
      sortSlice, insertLeft, firstTitle, replayHistory_QuestionID, replayHistory_logs,
      logOf]

/-- C11, amended: when lookup-or-create fails for a slug group, `ImportHistory` does
not abort and reports nothing: the loop goes on with the remaining groups from the
database state the failed lookup left. A remaining group whose question is resolved is
replayed, its final state is written with `UpsertUserStats` and then its logs with
`BatchCreateLogs`, and the loop goes on from the database after both writes; a failure
of either write aborts the batch with that error, the remaining groups untouched. When
no write fails, `ImportHistory` returns `nil` whatever lookups fail, and the state
reached is that of processing every group in turn; when lookup-or-create fails for the
slug `bad` only, the groups written are all the others, in the order of the loop. -/
theorem import_skips_failed_lookup :
    (∀ (σ : Type) (repo : Repository σ) (clock : ℕ → ℤ) (rand : ℕ → ℚ)
        (userID : String) (groups : String → List replayItem) (slug : String)
        (rest : List String) (st : ImportState σ) (e : String) (db1 : σ),
      ensureQuestionExists repo slug (firstTitle (groups slug)) st.db =
        (Except.error e, db1) →
      importLoop repo clock rand userID groups (slug :: rest) st =
        importLoop repo clock rand userID groups rest { st with db := db1 }) ∧
    (∀ (σ : Type) (repo : Repository σ) (clock : ℕ → ℤ) (rand : ℕ → ℚ)
        (userID : String) (groups : String → List replayItem) (slug : String)
        (rest : List String) (st : ImportState σ) (questionID : String)
        (db1 db2 db3 : σ),
      ensureQuestionExists repo slug (firstTitle (groups slug)) st.db =
        (Except.ok questionID, db1) →
      repo.UpsertUserStats
        (replayHistory userID questionID (fun k => clock (st.engineCalls + k))
          (fun k => rand (st.randCalls + k)) (groups slug)).1 db1 = (none, db2) →
      (replayHistory userID questionID (fun k => clock (st.engineCalls + k))
          (fun k => rand (st.randCalls + k)) (groups slug)).2.length > 0 →
      repo.BatchCreateLogs
        (replayHistory userID questionID (fun k => clock (st.engineCalls + k))
          (fun k => rand (st.randCalls + k)) (groups slug)).2 db2 = (none, db3) →
      importLoop repo clock rand userID groups (slug :: rest) st =
        importLoop repo clock rand userID groups rest
          { db := db3
            randCalls := st.randCalls +
              (replayRun userID questionID (fun k => clock (st.engineCalls + k))
              (fun k => rand (st.randCalls + k)) (groups slug)).randCalls
            engineCalls := st.engineCalls +
              (replayRun userID questionID (fun k => clock (st.engineCalls + k))
              (fun k => rand (st.randCalls + k)) (groups slug)).engineCalls
            completed := st.completed ++
              [(slug, (replayHistory userID questionID (fun k => clock (st.engineCalls + k))
          (fun k => rand (st.randCalls + k)) (groups slug)))] }) ∧
    (∀ (σ : Type) (repo : Repository σ) (clock : ℕ → ℤ) (rand : ℕ → ℚ)
        (userID : String) (groups : String → List replayItem) (slug : String)
        (rest : List String) (st : ImportState σ) (questionID err : String)
        (db1 db2 : σ),
      ensureQuestionExists repo slug (firstTitle (groups slug)) st.db =
        (Except.ok questionID, db1) →
      repo.UpsertUserStats
        (replayHistory userID questionID (fun k => clock (st.engineCalls + k))
          (fun k => rand (st.randCalls + k)) (groups slug)).1 db1 = (some err, db2) →
      (importLoop repo clock rand userID groups (slug :: rest) st).1 = some err ∧
      (importLoop repo clock rand userID groups (slug :: rest) st).2.db = db2 ∧
      (importLoop repo clock rand userID groups (slug :: rest) st).2.completed =
        st.completed) ∧
    (∀ (σ : Type) (repo : Repository σ) (clock : ℕ → ℤ) (rand : ℕ → ℚ)
        (userID : String) (groups : String → List replayItem) (slug : String)
        (rest : List String) (st : ImportState σ) (questionID err : String)
        (db1 db2 db3 : σ),
      ensureQuestionExists repo slug (firstTitle (groups slug)) st.db =
        (Except.ok questionID, db1) →
      repo.UpsertUserStats
        (replayHistory userID questionID (fun k => clock (st.engineCalls + k))
          (fun k => rand (st.randCalls + k)) (groups slug)).1 db1 = (none, db2) →
      (replayHistory userID questionID (fun k => clock (st.engineCalls + k))
          (fun k => rand (st.randCalls + k)) (groups slug)).2.length > 0 →
      repo.BatchCreateLogs
        (replayHistory userID questionID (fun k => clock (st.engineCalls + k))
          (fun k => rand (st.randCalls + k)) (groups slug)).2 db2 = (some err, db3) →
      (importLoop repo clock rand userID groups (slug :: rest) st).1 = some err ∧
      (importLoop repo clock rand userID groups (slug :: rest) st).2.db = db3 ∧
      (importLoop repo clock rand userID groups (slug :: rest) st).2.completed =
        st.completed) ∧
    (∀ (σ : Type) (repo : Repository σ) (clock : ℕ → ℤ) (rand : ℕ → ℚ)
        (srt : List HistoryItem → List HistoryItem) (order : List String)
        (userID : String) (req : List HistoryItem) (db : σ),
      (∀ stats db, (repo.UpsertUserStats stats db).1 = none) →
      (∀ logs db, (repo.BatchCreateLogs logs db).1 = none) →
      ImportHistory repo clock rand srt order userID req db =
        (none, order.foldl
          (processGroup repo clock rand userID (historyBySlug (srt req)))
          { db := db, randCalls := 0, engineCalls := 0, completed := [] })) ∧
    (∀ (σ : Type) (repo : Repository σ) (clock : ℕ → ℤ) (rand : ℕ → ℚ)
        (srt : List HistoryItem → List HistoryItem) (order : List String)
        (userID : String) (req : List HistoryItem) (db : σ) (bad : String),
      (∀ title db, ∃ e db1,
        ensureQuestionExists repo bad title db = (Except.error e, db1)) →
      (∀ slug ∈ order, slug ≠ bad → ∀ title db, ∃ questionID db1,
        ensureQuestionExists repo slug title db = (Except.ok questionID, db1)) →
      (∀ stats db, (repo.UpsertUserStats stats db).1 = none) →
      (∀ logs db, (repo.BatchCreateLogs logs db).1 = none) →
      (ImportHistory repo clock rand srt order userID req db).1 = none ∧
      (ImportHistory repo clock rand srt order userID req db).2.completed.map
        (fun c => c.1) = order.filter (fun slug => slug ≠ bad)) := by
  refine ⟨?_, ?_, ?_, ?_, ?_, ?_⟩
  · intro σ repo clock rand userID groups slug rest st e db1 hfail
    exact importLoop_skip repo clock rand userID groups slug rest st e db1 hfail
  · intro σ repo clock rand userID groups slug rest st questionID db1 db2 db3 hok hup hlen
      hlogs
    exact importLoop_written repo clock rand userID groups slug rest st questionID db1 db2
      db3 hok hup hlen hlogs
  · intro σ repo clock rand userID groups slug rest st questionID err db1 db2 hok hup
    rw [importLoop_upsert_fails repo clock rand userID groups slug rest st questionID err
      db1 db2 hok hup]
    exact ⟨rfl, rfl, rfl⟩
  · intro σ repo clock rand userID groups slug rest st questionID err db1 db2 db3 hok hup
      hlen hlogs
    rw [importLoop_logs_fail repo clock rand userID groups slug rest st questionID err
      db1 db2 db3 hok hup hlen hlogs]
    exact ⟨rfl, rfl, rfl⟩
  · intro σ repo clock rand srt order userID req db hup hlogs
    exact importLoop_eq_foldl repo clock rand userID (historyBySlug (srt req)) hup hlogs
      order _
  · intro σ repo clock rand srt order userID req db bad hbad hothers hup hlogs
    obtain ⟨h1, h2, _⟩ := importLoop_one_failing repo clock rand userID
      (historyBySlug (srt req)) bad hbad hup hlogs order
      { db := db, randCalls := 0, engineCalls := 0, completed := [] } hothers
    exact ⟨h1, by simpa using h2⟩

theorem import_skips_failed_lookup_witness :
    (importLoop (exampleRepo "bad" "full") (fun _ => 0) (fun _ => 0) "u"
      (historyBySlug [⟨"Full", "full", "Accepted", 100⟩, ⟨"Ok", "ok", "Accepted", 200⟩])
      ["full", "ok"]
      { db := ([], []), randCalls := 0, engineCalls := 0, completed := [] }).1 =
        some "disk full" ∧
    (importLoop (exampleRepo "bad" "full") (fun _ => 0) (fun _ => 0) "u"
      (historyBySlug [⟨"Full", "full", "Accepted", 100⟩, ⟨"Ok", "ok", "Accepted", 200⟩])
      ["full", "ok"]
      { db := ([], []), randCalls := 0, engineCalls := 0, completed := [] }).2.db =
        ([], []) := by
  have h := import_skips_failed_lookup.2.2.1 (List UserQuestionStats × List SubmissionLog)
    (exampleRepo "bad" "full") (fun _ => 0) (fun _ => 0) "u"
    (historyBySlug [⟨"Full", "full", "Accepted", 100⟩, ⟨"Ok", "ok", "Accepted", 200⟩])
    "full" ["ok"] { db := ([], []), randCalls := 0, engineCalls := 0, completed := [] }
    "id-full" "disk full" ([], []) ([], [])
    (by simp [ensureQuestionExists, exampleRepo])
    (by simp [exampleRepo, replayHistory_QuestionID])
  exact ⟨h.1, h.2.1⟩

/-! ## Helper lemmas on the streak -/

theorem replayStep_streak (userID questionID : String) (clock : ℕ → ℤ) (rand : ℕ → ℚ)
    (i : ℕ) (st : ReplayState) (item : replayItem)
    (h : ¬ (i > 0 ∧ elapsedDays item.Timestamp st.lastReviewDate < 0.5)) :
    (replayStep userID questionID clock rand i st item).currentStats.Streak =
        (if item.Status = "Accepted" then st.currentStats.Streak + 1 else 0) ∧
    (replayStep userID questionID clock rand i st item).lastReviewDate =
        item.Timestamp := by
  have hstep : replayStep userID questionID clock rand i st item =
      { currentStats :=
          { st.currentStats with
            IntervalDays := (CalculateNextReview (clock st.engineCalls) (rand st.randCalls)
              (srsInputOf st item (if i > 0 then
                elapsedDays item.Timestamp st.lastReviewDate else 0.0))).Interval
            EaseFactor := (CalculateNextReview (clock st.engineCalls) (rand st.randCalls)
              (srsInputOf st item (if i > 0 then
                elapsedDays item.Timestamp st.lastReviewDate else 0.0))).EaseFactor
            Streak := (CalculateNextReview (clock st.engineCalls) (rand st.randCalls)
              (srsInputOf st item (if i > 0 then
                elapsedDays item.Timestamp st.lastReviewDate else 0.0))).Repetitions
            Status := determineStatus
              (CalculateNextReview (clock st.engineCalls) (rand st.randCalls)
                (srsInputOf st item (if i > 0 then
                  elapsedDays item.Timestamp st.lastReviewDate else 0.0))).Repetitions }
        logs := st.logs ++ [logOf userID questionID item]
        lastReviewDate := item.Timestamp
        randCalls := if usesRand (srsInputOf st item (if i > 0 then
            elapsedDays item.Timestamp st.lastReviewDate else 0.0))
          then st.randCalls + 1 else st.randCalls
        engineCalls := st.engineCalls + 1 } := by
    unfold replayStep
    simp only
    by_cases hi : i > 0
    · have hlt : ¬ elapsedDays item.Timestamp st.lastReviewDate < 0.5 :=
        fun hc => h ⟨hi, hc⟩
      rw [if_pos hi, if_neg (fun hc => hlt hc.2)]
    · rw [if_neg hi, if_neg (fun hc => hi hc.1)]
  rw [hstep]
  refine ⟨?_, rfl⟩
  show (CalculateNextReview _ _ _).Repetitions = _
  unfold CalculateNextReview srsInputOf masteryOf
  by_cases hs : item.Status = "Accepted"
  · simp [hs]
  · simp [hs]

theorem replayLoop_streak (userID questionID : String) (clock : ℕ → ℤ) (rand : ℕ → ℚ)
    (items : List replayItem) :
    ∀ (i : ℕ) (st : ReplayState), 0 < i →
      (replayLoop userID questionID clock rand i st items).currentStats.Streak =
        streakAfter st.currentStats.Streak (processedFrom st.lastReviewDate items) := by
  induction items with
  | nil => intro i st _; rfl
  | cons x xs ih =>
    intro i st hi
    simp only [replayLoop, processedFrom]
    rw [ih (i + 1) _ (by omega)]
    by_cases hlt : elapsedDays x.Timestamp st.lastReviewDate < 0.5
    · rw [replayStep_skip userID questionID clock rand i st x hi hlt,
        if_pos ((elapsedDays_lt_half _ _).mp hlt)]
    · obtain ⟨h1, h2⟩ := replayStep_streak userID questionID clock rand i st x
        (fun hc => hlt hc.2)
      rw [if_neg (fun hc => hlt ((elapsedDays_lt_half _ _).mpr hc)), h1, h2]
      rfl

theorem replayRun_streak (userID questionID : String) (clock : ℕ → ℤ) (rand : ℕ → ℚ)
    (items : List replayItem) :
    (replayRun userID questionID clock rand items).currentStats.Streak =
      streakAfter 0 (processedEvents items) := by
  cases items with
  | nil => rfl
  | cons x xs =>
    unfold replayRun
    simp only [replayLoop, processedEvents]
    obtain ⟨h1, h2⟩ := replayStep_streak userID questionID clock rand 0
      (initReplay userID questionID) x (fun hc => absurd hc.1 (lt_irrefl 0))
    rw [replayLoop_streak _ _ _ _ _ _ _ (by omega), h1, h2]
    rfl

theorem streakAfter_append (streak : ℤ) (events : List replayItem) (e : replayItem) :
    streakAfter streak (events ++ [e]) =
      if e.Status = "Accepted" then streakAfter streak events + 1 else 0 := by
  unfold streakAfter
  rw [List.foldl_append]
  rfl

theorem streakAfter_zero (events : List replayItem) :
    streakAfter 0 events = (acceptedSinceLastFailure events : ℤ) := by
  induction events using List.reverseRecOn with
  | nil => rfl
  | append_singleton xs e ih =>
    rw [streakAfter_append, ih]
    unfold acceptedSinceLastFailure
    rw [List.reverse_append, List.reverse_singleton, List.singleton_append]
    by_cases hs : e.Status = "Accepted"
    · rw [if_pos hs, List.takeWhile_cons_of_pos (by simpa using hs), List.length_cons]
      push_cast
      rfl
    · rw [if_neg hs, List.takeWhile_cons_of_neg (by simpa using hs)]
      rfl

theorem acceptedSinceLastFailure_append (events : List replayItem) (e : replayItem) :
    acceptedSinceLastFailure (events ++ [e]) =
      if e.Status = "Accepted" then acceptedSinceLastFailure events + 1 else 0 := by
  unfold acceptedSinceLastFailure
  rw [List.reverse_append, List.reverse_singleton, List.singleton_append]
  by_cases hs : e.Status = "Accepted"
  · rw [if_pos hs, List.takeWhile_cons_of_pos (by simpa using hs), List.length_cons]
  · rw [if_neg hs, List.takeWhile_cons_of_neg (by simpa using hs)]
    rfl

theorem processedEvents_concat (items : List replayItem) (hne : items ≠ []) :
    ∃ ys e, processedEvents items = ys ++ [e] := by
  cases items with
  | nil => exact absurd rfl hne
  | cons x xs =>
    have hp : processedEvents (x :: xs) ≠ [] := by simp [processedEvents]
    rcases List.eq_nil_or_concat (processedEvents (x :: xs)) with h | ⟨ys, e, h⟩
    · exact absurd h hp
    · exact ⟨ys, e, by rw [h]; simp⟩

/-! ## Claim on the streak -/

/-- C13: for every non-empty event list the final `Streak` returned by `replayHistory`
is the number of processed (not skipped) events that come after the last processed
event whose status is not "Accepted" (all processed events when none failed); in
particular `Streak = 0` exactly when the last processed event was not "Accepted". -/
theorem streak_counts_accepted (userID questionID : String) (clock : ℕ → ℤ)
    (rand : ℕ → ℚ) (items : List replayItem) (hne : items ≠ []) :
    (replayHistory userID questionID clock rand items).1.Streak =
      (acceptedSinceLastFailure (processedEvents items) : ℤ) ∧
    ((replayHistory userID questionID clock rand items).1.Streak = 0 ↔
      ∃ e, (processedEvents items).getLast? = some e ∧ e.Status ≠ "Accepted") := by
  have hstreak : (replayHistory userID questionID clock rand items).1.Streak =
      (acceptedSinceLastFailure (processedEvents items) : ℤ) := by
    have h := replayRun_streak userID questionID clock rand items
    rw [streakAfter_zero] at h
    unfold replayHistory
    exact h
  refine ⟨hstreak, ?_⟩
  rw [hstreak]
  obtain ⟨ys, e, hys⟩ := processedEvents_concat items hne
  rw [hys, acceptedSinceLastFailure_append, List.getLast?_concat]
  by_cases hs : e.Status = "Accepted"
  · rw [if_pos hs]
    constructor
    · intro h
      have : (0 : ℤ) < ((acceptedSinceLastFailure ys + 1 : ℕ) : ℤ) := by
        exact_mod_cast Nat.succ_pos _
      omega
    · rintro ⟨e1, he1, hne1⟩
      rw [Option.some.injEq] at he1
      rw [← he1] at hne1
      exact absurd hs hne1
  · rw [if_neg hs]
    exact ⟨fun _ => ⟨e, rfl, hs⟩, fun _ => rfl⟩

theorem streak_counts_accepted_witness :
    (replayHistory "u" "q" (fun _ => 0) (fun _ => 0)
      [⟨0, "Wrong Answer", "a"⟩, ⟨86400, "Accepted", "a"⟩, ⟨86400 + 60, "Wrong Answer", "a"⟩,
        ⟨2 * 86400, "Accepted", "a"⟩]).1.Streak =
      (acceptedSinceLastFailure (processedEvents
        [⟨0, "Wrong Answer", "a"⟩, ⟨86400, "Accepted", "a"⟩,
          ⟨86400 + 60, "Wrong Answer", "a"⟩, ⟨2 * 86400, "Accepted", "a"⟩]) : ℤ) :=
  (streak_counts_accepted "u" "q" (fun _ => 0) (fun _ => 0)
    [⟨0, "Wrong Answer", "a"⟩, ⟨86400, "Accepted", "a"⟩, ⟨86400 + 60, "Wrong Answer", "a"⟩,
      ⟨2 * 86400, "Accepted", "a"⟩] (by simp)).1

/-! ## Claim on the daily tasks -/

/-- C12 (defect of the code): the query gives a row with `interval_days = 0` the
finite weight 1000, so a row with `interval_days = 1` that is 1001 days overdue
(priority 1001) is ranked before it, and with `limit = 1` the new item is not
returned at all, against the comment above the query, by which the weight makes sure
that new questions also appear. The weight is also given for `interval_days = 0`
only: a row with status NEW and `interval_days = 1` due one day after `now` is
selected and has priority -1. -/
theorem overdue_row_outranks_new_row :
    priority 100000000 ⟨"b", "B", "b", "Easy", "u", "REVIEW", 13513600, 1⟩ = 1001 ∧
    priority 100000000 ⟨"a", "A", "a", "Easy", "u", "NEW", 100000000, 0⟩ = 1000 ∧
    rankedRows 100000000
        [⟨"a", "A", "a", "Easy", "u", "NEW", 100000000, 0⟩,
          ⟨"b", "B", "b", "Easy", "u", "REVIEW", 13513600, 1⟩] "u" 2 =
      [⟨"b", "B", "b", "Easy", "u", "REVIEW", 13513600, 1⟩,
        ⟨"a", "A", "a", "Easy", "u", "NEW", 100000000, 0⟩] ∧
    (GetDailyTasks 100000000
        [⟨"a", "A", "a", "Easy", "u", "NEW", 100000000, 0⟩,
          ⟨"b", "B", "b", "Easy", "u", "REVIEW", 13513600, 1⟩] "u" 1).map
        (fun t => t.QuestionID) = ["b"] ∧
    isSelected 100000000 "u" ⟨"c", "C", "c", "Easy", "u", "NEW", 100086400, 1⟩ = true ∧
    priority 100000000 ⟨"c", "C", "c", "Easy", "u", "NEW", 100086400, 1⟩ = -1 := by
  have hb : priority 100000000 ⟨"b", "B", "b", "Easy", "u", "REVIEW", 13513600, 1⟩ =
      1001 := by
    unfold priority
    norm_num
  have ha : priority 100000000 ⟨"a", "A", "a", "Easy", "u", "NEW", 100000000, 0⟩ =
      1000 := by
    unfold priority
    norm_num
  have hrank : orderByPriorityDesc 100000000
      (List.filter (isSelected 100000000 "u")
        [⟨"a", "A", "a", "Easy", "u", "NEW", 100000000, 0⟩,
          ⟨"b", "B", "b", "Easy", "u", "REVIEW", 13513600, 1⟩]) =
      [⟨"b", "B", "b", "Easy", "u", "REVIEW", 13513600, 1⟩,
        ⟨"a", "A", "a", "Easy", "u", "NEW", 100000000, 0⟩] := by
    simp [orderByPriorityDesc, isSelected, List.insertionSort, List.orderedInsert, ha, hb]
    norm_num
  refine ⟨hb, ha, ?_, ?_, ?_, ?_⟩
  · unfold rankedRows
    rw [hrank]
    rfl
  · unfold GetDailyTasks rankedRows
    rw [hrank]
    rfl
  · simp [isSelected]
  · unfold priority
    norm_num

end LeTracker
